import Mathlib

/-!
Shallow embedding of the TimeFlies task/time-accounting engine
(`src/src-tauri/src/app/service.rs`) and proofs about its specification.

The SQLite store is modelled as an explicit record of tables (lists of
rows); each public service operation is a pure function from a database
state to `Except String` of the new state, mirroring the Rust functions
line by line.  SQL queries are translated as list operations: `LIMIT 1`
without `ORDER BY` picks the first matching row, `ORDER BY ts, id` is an
explicit sort, `UPDATE ... WHERE` is a `List.map` that rewrites matching
rows.  JSON payloads are modelled as a record of the recognized keys.
`f64` is modelled as `ℚ` (the rest advisor only divides, takes `max` with
zero, and compares).
-/

namespace TimeFlies

/-- Character-level trim mirroring Rust's `str::trim` (drop leading and
trailing whitespace). -/
def rustTrim (s : String) : String :=
  String.mk (((s.data.dropWhile Char.isWhitespace).reverse.dropWhile Char.isWhitespace).reverse)

/-- A structured event payload: the closed set of recognized keys
(`reason`, `child_id`, `parent_id`, `tag`, `old_parent_id`,
`new_parent_id`). -/
structure Payload where
  reason : Option String := none
  child_id : Option String := none
  parent_id : Option String := none
  old_parent_id : Option String := none
  new_parent_id : Option String := none
  tag : Option String := none
deriving DecidableEq

/-- A row of the `tasks` table. -/
structure Task where
  id : String
  parent_id : Option String
  title : String
  status : String
  created_at : Int
  archived_at : Option Int
deriving DecidableEq

/-- A row of the `time_events` table. -/
structure Event where
  id : Int
  task_id : String
  event_type : String
  ts : Int
  payload : Option Payload
deriving DecidableEq

/-- A row of the `rest_suggestions` table. -/
structure Suggestion where
  id : Int
  trigger_type : String
  task_id : Option String
  focus_seconds : Int
  switch_count_30m : Int
  deviation_ratio : ℚ
  suggested_minutes : Int
  reasons : List String
  status : String
  created_at : Int
  responded_at : Option Int
deriving DecidableEq

/-- A row of the `tags` table. -/
structure TagRow where
  id : String
  name : String
deriving DecidableEq

/-- A row of the `task_tags` table. -/
structure TaskTag where
  task_id : String
  tag_id : String
  created_at : Int
deriving DecidableEq

/-- The whole persistent store.  `next_event_id` / `next_suggestion_id`
model the AUTOINCREMENT id sequences. -/
structure Db where
  tasks : List Task
  tags : List TagRow
  task_tags : List TaskTag
  events : List Event
  suggestions : List Suggestion
  next_event_id : Int
  next_suggestion_id : Int
deriving DecidableEq

instance {ε α : Type} [DecidableEq ε] [DecidableEq α] : DecidableEq (Except ε α) := fun a b =>
  match a, b with
  | .ok x, .ok y =>
      if h : x = y then .isTrue (by rw [h])
      else .isFalse (fun hc => by cases hc; exact h rfl)
  | .error x, .error y =>
      if h : x = y then .isTrue (by rw [h])
      else .isFalse (fun hc => by cases hc; exact h rfl)
  | .ok _, .error _ => .isFalse (fun hc => by cases hc)
  | .error _, .ok _ => .isFalse (fun hc => by cases hc)

/-- The projection of a task row read by `get_task_state`. -/
structure TaskState where
  parent_id : Option String
  status : String
deriving DecidableEq

/-- `sanitize_title`: trim, fail when empty. -/
def sanitize_title (raw : String) : Except String String :=
  let cleaned := rustTrim raw
  if cleaned = "" then .error "title cannot be empty" else .ok cleaned

/-- `sanitize_tag`: trim, fail when empty. -/
def sanitize_tag (raw : String) : Except String String :=
  let cleaned := rustTrim raw
  if cleaned = "" then .error "tag cannot be empty" else .ok cleaned

/-- `SELECT parent_id, status FROM tasks WHERE id = ? AND archived_at IS NULL LIMIT 1`. -/
def get_task_state (s : Db) (task_id : String) : Except String TaskState :=
  match s.tasks.find? (fun t => decide (t.id = task_id ∧ t.archived_at = none)) with
  | some t => .ok ⟨t.parent_id, t.status⟩
  | none => .error ("task " ++ task_id ++ " not found or archived")

/-- `ensure_task_exists`. -/
def ensure_task_exists (s : Db) (task_id : String) : Except String Unit :=
  (get_task_state s task_id).map (fun _ => ())

/-- `SELECT id FROM tasks WHERE status = 'running' AND archived_at IS NULL LIMIT 1`. -/
def find_running_task (s : Db) : Option String :=
  (s.tasks.find? (fun t => decide (t.status = "running" ∧ t.archived_at = none))).map (·.id)

/-- Of two events, the later one in the canonical `(ts, id)` order. -/
def laterEvent (a b : Event) : Event :=
  if a.ts < b.ts ∨ (a.ts = b.ts ∧ a.id < b.id) then b else a

/-- `ORDER BY ts DESC, id DESC LIMIT 1` over a list of events. -/
def latest_event (es : List Event) : Option Event :=
  es.foldl (fun acc e =>
    match acc with
    | none => some e
    | some a => some (laterEvent a e)) none

/-- `latest_focus_task`: the task of the latest `start`/`resume` event. -/
def latest_focus_task (s : Db) : Option String :=
  (latest_event (s.events.filter
    (fun e => decide (e.event_type = "start" ∨ e.event_type = "resume")))).map (·.task_id)

/-- `append_event`: insert into `time_events` with the next assigned id. -/
def append_event (s : Db) (task_id event_type : String) (ts : Int)
    (payload : Option Payload) : Db :=
  { s with
    events := s.events ++ [⟨s.next_event_id, task_id, event_type, ts, payload⟩],
    next_event_id := s.next_event_id + 1 }

/-- `UPDATE tasks SET status = ? WHERE id = ?` (no archived filter,
as in the lifecycle transitions). -/
def update_task_status (s : Db) (task_id status : String) : Db :=
  { s with tasks := s.tasks.map (fun t => if t.id = task_id then { t with status } else t) }

/-- The canonical `(ts, id)` order on events, as a boolean. -/
def eventLe (a b : Event) : Bool :=
  decide (a.ts < b.ts ∨ (a.ts = b.ts ∧ a.id ≤ b.id))

/-- Insert an event into a `(ts, id)`-sorted list. -/
def insertEvent (e : Event) : List Event → List Event
  | [] => [e]
  | g :: gs => if eventLe e g then e :: g :: gs else g :: insertEvent e gs

/-- `ORDER BY ts ASC, id ASC` over a list of events (insertion sort). -/
def sortEvents (es : List Event) : List Event :=
  es.foldr insertEvent []

/-- Insert an integer into a sorted list of integers. -/
def insertInt (x : Int) : List Int → List Int
  | [] => [x]
  | y :: ys => if x ≤ y then x :: y :: ys else y :: insertInt x ys

/-- Ascending sort of integers, mirroring `sort_unstable`. -/
def sortInts (xs : List Int) : List Int :=
  xs.foldr insertInt []

/-- `median_i64`: integer median, lower-of-two averaged with truncating
division for even counts. -/
def median_i64 (values : List Int) : Int :=
  if values.isEmpty then 0
  else
    let sorted := sortInts values
    let mid := sorted.length / 2
    if sorted.length % 2 = 0 then
      ((sorted.getD (mid - 1) 0) + (sorted.getD mid 0)).tdiv 2
    else
      sorted.getD mid 0

/-- `completed_session_durations`: replay the `start|resume`/`pause|stop`
events of one task (with `ts ≤ until_ts`, in `(ts, id)` order) into the
list of closed-session lengths. -/
def completed_session_durations (events : List Event) (task_id : String)
    (until_ts : Int) : List Int :=
  let rows := sortEvents (events.filter (fun e =>
    decide (e.task_id = task_id ∧
      (e.event_type = "start" ∨ e.event_type = "resume" ∨
       e.event_type = "pause" ∨ e.event_type = "stop") ∧ e.ts ≤ until_ts)))
  (rows.foldl (fun (acc : Option Int × List Int) e =>
      if e.event_type = "start" ∨ e.event_type = "resume" then
        match acc.1 with
        | none => (some e.ts, acc.2)
        | some _ => acc
      else
        match acc.1 with
        | some start => (none, if start < e.ts then acc.2 ++ [e.ts - start] else acc.2)
        | none => acc) (none, [])).2

/-- `latest_closed_session_duration`. -/
def latest_closed_session_duration (events : List Event) (task_id : String)
    (until_ts : Int) : Option Int :=
  (completed_session_durations events task_id until_ts).getLast?

/-- `count_task_switches`: adjacent different task ids among the
`start|resume` events with `ts` in `[window_start, window_end]`. -/
def count_task_switches (events : List Event) (window_start window_end : Int) : Int :=
  let rows := sortEvents (events.filter (fun e =>
    decide ((e.event_type = "start" ∨ e.event_type = "resume") ∧
      window_start ≤ e.ts ∧ e.ts ≤ window_end)))
  (rows.foldl (fun (acc : Option String × Int) e =>
      match acc.1 with
      | some previous =>
          (some e.task_id, if previous ≠ e.task_id then acc.2 + 1 else acc.2)
      | none => (some e.task_id, acc.2)) (none, 0)).2

/-- `compute_deviation_ratio`, with `f64` modelled as `ℚ`. -/
def compute_deviation_ratio (events : List Event) (task_id : String)
    (focus_seconds : Int) (until_ts : Int) : ℚ :=
  if focus_seconds ≤ 0 then 0
  else
    let sessions := completed_session_durations events task_id until_ts
    if sessions.length < 2 then 0
    else
      let latest := sessions.getLast?.getD focus_seconds
      let remaining := sessions.dropLast
      let current := if focus_seconds > 0 then focus_seconds else latest
      let baseline := median_i64 remaining
      if baseline ≤ 0 then 0
      else max 0 (((current - baseline : Int) : ℚ) / (baseline : ℚ))

/-- `evaluate_rest_rules`: the scored advisory rules. -/
def evaluate_rest_rules (focus_seconds switch_count_30m : Int)
    (deviation_ratio : ℚ) : Int × List String :=
  let score : Int := 0
  let reasons : List String := []
  let (score, reasons) :=
    if focus_seconds ≥ 5400 then
      (score + 4, reasons ++ ["continuous focus reached 90+ minutes"])
    else if focus_seconds ≥ 3000 then
      (score + 2, reasons ++ ["continuous focus reached 50+ minutes"])
    else (score, reasons)
  let (score, reasons) :=
    if switch_count_30m ≥ 6 then
      (score + 4, reasons ++ ["task switching was very frequent in the last 30 minutes"])
    else if switch_count_30m ≥ 3 then
      (score + 2, reasons ++ ["task switching increased in the last 30 minutes"])
    else (score, reasons)
  let (score, reasons) :=
    if deviation_ratio ≥ 1 then
      (score + 2, reasons ++ ["focus duration is significantly above historical median"])
    else if deviation_ratio ≥ 1 / 2 then
      (score + 1, reasons ++ ["focus duration is above historical median"])
    else (score, reasons)
  let minutes : Int :=
    if score ≥ 7 then 15 else if score ≥ 4 then 8 else if score ≥ 2 then 3 else 0
  let reasons :=
    if reasons.isEmpty then ["current rhythm is stable; continuing is reasonable"]
    else reasons
  (minutes, reasons)

/-- `insert_rest_suggestion`: demote every pending row to ignored with
`responded_at = ts`, then insert the new pending row. -/
def insert_rest_suggestion (s : Db) (trigger_type : String)
    (task_id : Option String) (focus_seconds switch_count_30m : Int)
    (deviation_ratio : ℚ) (suggested_minutes : Int) (reasons : List String)
    (ts : Int) : Db :=
  let demoted := s.suggestions.map (fun r =>
    if r.status = "pending" then
      { r with status := "ignored", responded_at := some ts }
    else r)
  { s with
    suggestions := demoted ++
      [⟨s.next_suggestion_id, trigger_type, task_id, focus_seconds,
        switch_count_30m, deviation_ratio, suggested_minutes, reasons,
        "pending", ts, none⟩],
    next_suggestion_id := s.next_suggestion_id + 1 }

/-- `create_rest_suggestion`: compute the advisory metrics from the event
log and write the suggestion. -/
def create_rest_suggestion (s : Db) (trigger_type : String)
    (source_task_id : Option String) (trigger_ts : Int) : Db :=
  let focus_seconds :=
    match source_task_id with
    | some task_id => (latest_closed_session_duration s.events task_id trigger_ts).getD 0
    | none => 0
  let switch_count_30m := count_task_switches s.events (trigger_ts - 1800) trigger_ts
  let deviation_ratio :=
    match source_task_id with
    | some task_id => compute_deviation_ratio s.events task_id focus_seconds trigger_ts
    | none => 0
  let minutes_reasons :=
    evaluate_rest_rules focus_seconds switch_count_30m deviation_ratio
  insert_rest_suggestion s trigger_type source_task_id focus_seconds
    switch_count_30m deviation_ratio minutes_reasons.1 minutes_reasons.2 trigger_ts

/-- `maybe_create_task_switch_suggestion`. -/
def maybe_create_task_switch_suggestion (s : Db)
    (previous_focus_task : Option String) (current_task_id : String)
    (ts : Int) : Db :=
  match previous_focus_task with
  | none => s
  | some previous_task_id =>
      if previous_task_id = current_task_id then s
      else create_rest_suggestion s "task_switch" (some previous_task_id) ts

/-- `maybe_auto_resume_parent`: inside the stop transaction, resume the
paused parent when its most recent event is the matching insert-subtask
pause and nothing else is running.  Returns whether it fired together
with the new state. -/
def maybe_auto_resume_parent (s : Db) (parent_task_id child_task_id : String)
    (ts : Int) : Bool × Db :=
  let parent_status :=
    (s.tasks.find? (fun t =>
      decide (t.id = parent_task_id ∧ t.archived_at = none))).map (·.status)
  if parent_status ≠ some "paused" then (false, s)
  else
    match latest_event (s.events.filter (fun e => decide (e.task_id = parent_task_id))) with
    | none => (false, s)
    | some latest =>
      if latest.event_type ≠ "pause" then (false, s)
      else
        let child_id_from_payload := latest.payload.bind (·.child_id)
        if child_id_from_payload ≠ some child_task_id then (false, s)
        else if (s.tasks.find? (fun t =>
            decide (t.status = "running" ∧ t.archived_at = none))).isSome then
          (false, s)
        else
          (true,
            append_event (update_task_status s parent_task_id "running")
              parent_task_id "resume" ts
              (some { reason := some "child_stopped",
                      child_id := some child_task_id }))

/-- `start_task`. -/
def start_task (s : Db) (task_id : String) (now : Int) : Except String Db :=
  let previous_focus_task := latest_focus_task s
  match get_task_state s task_id with
  | .error e => .error e
  | .ok task =>
    if task.status = "running" then .ok s
    else if task.status = "paused" then
      .error "task is paused, use resume_task instead"
    else
      let proceed : Except String Db :=
        let s₁ := append_event (update_task_status s task_id "running") task_id "start" now none
        .ok (maybe_create_task_switch_suggestion s₁ previous_focus_task task_id now)
      match find_running_task s with
      | some active_task_id =>
          if active_task_id ≠ task_id then
            .error ("cannot start task because task " ++ active_task_id ++
              " is already running")
          else proceed
      | none => proceed

/-- `pause_task`. -/
def pause_task (s : Db) (task_id : String) (now : Int) : Except String Db :=
  match get_task_state s task_id with
  | .error e => .error e
  | .ok task =>
    if task.status = "paused" then .ok s
    else if task.status ≠ "running" then
      .error "only a running task can be paused"
    else
      .ok (append_event (update_task_status s task_id "paused") task_id "pause" now none)

/-- `resume_task`. -/
def resume_task (s : Db) (task_id : String) (now : Int) : Except String Db :=
  let previous_focus_task := latest_focus_task s
  match get_task_state s task_id with
  | .error e => .error e
  | .ok task =>
    if task.status = "running" then .ok s
    else if task.status ≠ "paused" then
      .error "only a paused task can be resumed"
    else
      let proceed : Except String Db :=
        let s₁ := append_event (update_task_status s task_id "running") task_id "resume" now none
        .ok (maybe_create_task_switch_suggestion s₁ previous_focus_task task_id now)
      match find_running_task s with
      | some active_task_id =>
          if active_task_id ≠ task_id then
            .error ("cannot resume task because task " ++ active_task_id ++
              " is already running")
          else proceed
      | none => proceed

/-- The transactional part of `stop_task`: set the task stopped, append
the `stop` event, run the auto-resume check.  Returns the committed state
and whether auto-resume fired. -/
def stop_task_tx (s : Db) (task_id : String) (parent_id : Option String)
    (now : Int) : Db × Bool :=
  let s₁ := append_event (update_task_status s task_id "stopped") task_id "stop" now none
  match parent_id with
  | some parent =>
      let fired_s₂ := maybe_auto_resume_parent s₁ parent task_id now
      (fired_s₂.2, fired_s₂.1)
  | none => (s₁, false)

/-- `stop_task`: the transaction, then the post-commit subtask-end
advisor when auto-resume fired. -/
def stop_task (s : Db) (task_id : String) (now : Int) : Except String Db :=
  match get_task_state s task_id with
  | .error e => .error e
  | .ok task =>
    if task.status = "stopped" then .ok s
    else if task.status = "idle" then .error "cannot stop an idle task"
    else
      let txres := stop_task_tx s task_id task.parent_id now
      if txres.2 then
        .ok (create_rest_suggestion txres.1 "subtask_end" (some task_id) now)
      else .ok txres.1

/-- `insert_subtask_and_start`: pause the uniquely-running parent and
start a fresh child under it, then fire the task-switch advisor. -/
def insert_subtask_and_start (s : Db) (parent_task_id title : String)
    (child_task_id : String) (now : Int) : Except String (String × Db) :=
  match sanitize_title title with
  | .error e => .error e
  | .ok clean_title =>
    match get_task_state s parent_task_id with
    | .error e => .error e
    | .ok parent =>
      if parent.status ≠ "running" then
        .error "insert_subtask_and_start requires the parent task to be running"
      else
        match find_running_task s with
        | none => .error "no running task found for subtask insertion"
        | some active_task_id =>
          if active_task_id ≠ parent_task_id then
            .error ("cannot insert subtask while task " ++ active_task_id ++
              " is running")
          else if s.tasks.any (fun t => t.id = child_task_id) then
            .error "UNIQUE constraint failed: tasks.id"
          else
            let s₁ := append_event (update_task_status s parent_task_id "paused")
              parent_task_id "pause" now
              (some { reason := some "insert_subtask", child_id := some child_task_id })
            let s₂ := { s₁ with tasks := s₁.tasks ++
              [⟨child_task_id, some parent_task_id, clean_title, "running", now, none⟩] }
            let s₃ := append_event s₂ child_task_id "start" now
              (some { reason := some "insert_subtask", parent_id := some parent_task_id })
            .ok (child_task_id,
              create_rest_suggestion s₃ "task_switch" (some parent_task_id) now)

/-- `create_task`: insert a fresh idle task (the fresh UUID is a
parameter; the primary-key constraint is checked as the store would). -/
def create_task (s : Db) (title : String) (parent_id : Option String)
    (new_task_id : String) (now : Int) : Except String (String × Db) :=
  match sanitize_title title with
  | .error e => .error e
  | .ok clean_title =>
    match parent_id with
    | some parent =>
      (match ensure_task_exists s parent with
       | .error e => .error e
       | .ok _ =>
         if s.tasks.any (fun t => t.id = new_task_id) then
           .error "UNIQUE constraint failed: tasks.id"
         else
           .ok (new_task_id, { s with tasks := s.tasks ++
             [(⟨new_task_id, parent_id, clean_title, "idle", now, none⟩ : Task)] }))
    | none =>
      if s.tasks.any (fun t => t.id = new_task_id) then
        .error "UNIQUE constraint failed: tasks.id"
      else
        .ok (new_task_id, { s with tasks := s.tasks ++
          [(⟨new_task_id, parent_id, clean_title, "idle", now, none⟩ : Task)] })

/-- `rename_task`. -/
def rename_task (s : Db) (task_id title : String) : Except String Db :=
  match ensure_task_exists s task_id with
  | .error e => .error e
  | .ok _ =>
    match sanitize_title title with
    | .error e => .error e
    | .ok clean_title =>
      .ok { s with tasks := s.tasks.map (fun t =>
        if t.id = task_id ∧ t.archived_at = none then { t with title := clean_title }
        else t) }

/-- `SELECT id FROM tasks WHERE parent_id = ? AND archived_at IS NULL
ORDER BY created_at ASC` (the tasks table is kept in `created_at` order
by construction, as rows are only ever appended with the current time). -/
def children_of (s : Db) (task_id : String) : List String :=
  (s.tasks.filter (fun t =>
    decide (t.parent_id = some task_id ∧ t.archived_at = none))).map (·.id)

/-- The stack/visited loop of `collect_subtree_ids`; the fuel bounds the
iteration count (the store is finite, so the real loop terminates; fuel
exhaustion surfaces as a traversal error, which no reachable state
triggers). -/
def collect_subtree_go (s : Db) : Nat → List String → List String → List String →
    Except String (List String)
  | 0, _, _, _ => .error "subtree traversal did not terminate"
  | _ + 1, [], _, result => .ok result
  | fuel + 1, task_id :: stack, visited, result =>
      if visited.contains task_id then
        .error ("detected cycle while traversing task subtree at " ++ task_id)
      else
        collect_subtree_go s fuel ((children_of s task_id).reverse ++ stack)
          (task_id :: visited) (result ++ [task_id])

/-- `collect_subtree_ids`: depth-first walk with cycle detection. -/
def collect_subtree_ids (s : Db) (root_task_id : String) :
    Except String (List String) :=
  collect_subtree_go s (2 * s.tasks.length + 2) [root_task_id] [] []

/-- The per-root loop of `expand_unique_subtree_ids`. -/
def expand_go (s : Db) : List String → List String → List String →
    Except String (List String)
  | [], _, expanded => .ok expanded
  | root_task_id :: rest, seen, expanded =>
    let task_id := rustTrim root_task_id
    if task_id = "" then expand_go s rest seen expanded
    else if seen.contains task_id then expand_go s rest seen expanded
    else
      match ensure_task_exists s task_id with
      | .error e => .error e
      | .ok _ =>
        match collect_subtree_ids s task_id with
        | .error e => .error e
        | .ok subtree_ids =>
          let (seen, expanded) := subtree_ids.foldl
            (fun (acc : List String × List String) subtree_id =>
              if acc.1.contains subtree_id then acc
              else (subtree_id :: acc.1, acc.2 ++ [subtree_id])) (seen, expanded)
          expand_go s rest seen expanded

/-- `expand_unique_subtree_ids`: trim, skip empties and repeats, expand
each root to its subtree, deduplicate in discovery order. -/
def expand_unique_subtree_ids (s : Db) (root_task_ids : List String) :
    Except String (List String) :=
  expand_go s root_task_ids [] []

/-- `find_active_in_subtree`: the first expanded task that is currently
running or paused, with its status. -/
def find_active_in_subtree (s : Db) (task_ids : List String) :
    Option (String × String) :=
  task_ids.findSome? (fun task_id =>
    match s.tasks.find? (fun t => decide (t.id = task_id ∧ t.archived_at = none)) with
    | some t =>
        if t.status = "running" ∨ t.status = "paused" then some (task_id, t.status)
        else none
    | none => none)

/-- `archive_task_ids`: soft-archive every listed id that is still
non-archived. -/
def archive_task_ids (s : Db) (task_ids : List String) (archived_at : Int) : Db :=
  { s with tasks := s.tasks.map (fun t =>
    if task_ids.contains t.id ∧ t.archived_at = none then
      { t with archived_at := some archived_at }
    else t) }

/-- `hard_delete_task_ids`: delete rest suggestions and events of each
task, the task rows themselves, and then orphaned tags. -/
def hard_delete_task_ids (s : Db) (task_ids : List String) : Db :=
  let s := { s with
    suggestions := s.suggestions.filter (fun r =>
      ¬ task_ids.any (fun task_id => r.task_id = some task_id)),
    events := s.events.filter (fun e => ¬ task_ids.contains e.task_id),
    tasks := s.tasks.filter (fun t => ¬ task_ids.contains t.id) }
  { s with tags := s.tags.filter (fun tag =>
      s.task_tags.any (fun link => link.tag_id = tag.id)) }

/-- `delete_tasks`. -/
def delete_tasks (s : Db) (task_ids : List String) (hard_delete : Bool)
    (now : Int) : Except String Db :=
  if task_ids.isEmpty then .error "task_ids cannot be empty"
  else
    match expand_unique_subtree_ids s task_ids with
    | .error e => .error e
    | .ok expanded_ids =>
      if expanded_ids.isEmpty then .ok s
      else
        match find_active_in_subtree s expanded_ids with
        | some (active_id, active_status) =>
            .error ("cannot " ++ (if hard_delete then "hard delete" else "archive") ++
              " task " ++ active_id ++ " because it is currently " ++ active_status)
        | none =>
            if hard_delete then .ok (hard_delete_task_ids s expanded_ids)
            else .ok (archive_task_ids s expanded_ids now)

/-- `archive_task`. -/
def archive_task (s : Db) (task_id : String) (now : Int) : Except String Db :=
  delete_tasks s [task_id] false now

/-- `ensure_ancestor_chain_valid`: walk the ancestors of the new parent;
fail when the chain passes through the reparented task or reveals a
cycle.  Fuel as in `collect_subtree_go`. -/
def ensure_ancestor_chain_valid_go (s : Db) (blocked_task_id : String) :
    Nat → Option String → List String → Except String Unit
  | 0, _, _ => .error "ancestor walk did not terminate"
  | _ + 1, none, _ => .ok ()
  | fuel + 1, some task_id, visited =>
    if visited.contains task_id then
      .error ("detected existing cycle involving task " ++ task_id)
    else if task_id = blocked_task_id then
      .error "cannot reparent task under itself or its descendants"
    else
      match s.tasks.find? (fun t => decide (t.id = task_id ∧ t.archived_at = none)) with
      | none => .error ("task " ++ task_id ++ " not found or archived")
      | some t => ensure_ancestor_chain_valid_go s blocked_task_id fuel t.parent_id
          (task_id :: visited)

/-- `ensure_ancestor_chain_valid`. -/
def ensure_ancestor_chain_valid (s : Db) (new_parent_id blocked_task_id : String) :
    Except String Unit :=
  ensure_ancestor_chain_valid_go s blocked_task_id (s.tasks.length + 2)
    (some new_parent_id) []

/-- `reparent_task`. -/
def reparent_task (s : Db) (task_id : String) (new_parent_id : Option String)
    (now : Int) : Except String Db :=
  match get_task_state s task_id with
  | .error e => .error e
  | .ok task =>
    let old_parent_id := task.parent_id
    if new_parent_id = some task_id then .error "task cannot be its own parent"
    else if old_parent_id = new_parent_id then .ok s
    else
      match collect_subtree_ids s task_id with
      | .error e => .error e
      | .ok subtree_ids =>
        match find_active_in_subtree s subtree_ids with
        | some (active_id, active_status) =>
            .error ("cannot reparent while task " ++ active_id ++ " is " ++
              active_status ++ "; stop or pause transitions first")
        | none =>
          let checks : Except String Unit :=
            match new_parent_id with
            | some parent_id =>
              (match ensure_task_exists s parent_id with
               | .error e => .error e
               | .ok _ =>
                 if subtree_ids.contains parent_id then
                   .error "cannot reparent task under itself or its descendants"
                 else ensure_ancestor_chain_valid s parent_id task_id)
            | none => .ok ()
          match checks with
          | .error e => .error e
          | .ok _ =>
            let s₁ := { s with tasks := s.tasks.map (fun t =>
              if t.id = task_id ∧ t.archived_at = none then
                { t with parent_id := new_parent_id }
              else t) }
            .ok (append_event s₁ task_id "reparent" now
              (some { old_parent_id := old_parent_id, new_parent_id := new_parent_id }))

/-- `add_tag_to_task` (fresh tag UUID as a parameter). -/
def add_tag_to_task (s : Db) (task_id tag_name new_tag_id : String)
    (now : Int) : Except String Db :=
  match ensure_task_exists s task_id with
  | .error e => .error e
  | .ok _ =>
    match sanitize_tag tag_name with
    | .error e => .error e
    | .ok clean_tag =>
      let maybe_tag_id :=
        (s.tags.find? (fun tag => tag.name.toLower = clean_tag.toLower)).map (·.id)
      let (tag_id, s₁) :=
        match maybe_tag_id with
        | some existing_id => (existing_id, s)
        | none => (new_tag_id, { s with tags := s.tags ++ [(⟨new_tag_id, clean_tag⟩ : TagRow)] })
      if s₁.task_tags.any (fun link => link.task_id = task_id ∧ link.tag_id = tag_id) then
        .ok s₁
      else
        let s₂ := { s₁ with task_tags := s₁.task_tags ++ [(⟨task_id, tag_id, now⟩ : TaskTag)] }
        .ok (append_event s₂ task_id "tag_add" now (some { tag := some clean_tag }))

/-- `remove_tag_from_task`. -/
def remove_tag_from_task (s : Db) (task_id tag_name : String)
    (now : Int) : Except String Db :=
  match ensure_task_exists s task_id with
  | .error e => .error e
  | .ok _ =>
    match sanitize_tag tag_name with
    | .error e => .error e
    | .ok clean_tag =>
      match (s.tags.find? (fun tag => tag.name.toLower = clean_tag.toLower)).map (·.id) with
      | none => .ok s
      | some tag_id =>
        if s.task_tags.any (fun link => link.task_id = task_id ∧ link.tag_id = tag_id) then
          let s₁ := { s with task_tags := s.task_tags.filter (fun link =>
            ¬ (link.task_id = task_id ∧ link.tag_id = tag_id)) }
          .ok (append_event s₁ task_id "tag_remove" now (some { tag := some clean_tag }))
        else .ok s

/-- `respond_rest_suggestion`. -/
def respond_rest_suggestion (s : Db) (suggestion_id : Int) (accept : Bool)
    (now : Int) : Except String Db :=
  if suggestion_id ≤ 0 then .error "suggestion_id must be positive"
  else
    let status := if accept then "accepted" else "ignored"
    let updated := s.suggestions.filter (fun r =>
      decide (r.id = suggestion_id ∧ r.status = "pending"))
    if updated.length > 0 then
      .ok { s with suggestions := s.suggestions.map (fun r =>
        if r.id = suggestion_id ∧ r.status = "pending" then
          { r with status := status, responded_at := some now }
        else r) }
    else
      match s.suggestions.find? (fun r => decide (r.id = suggestion_id)) with
      | some _ => .ok s
      | none => .error ("rest suggestion not found")

/-- The aggregator's replay state: per-task open-interval start and the
accumulated exclusive seconds (maps, absent keys defaulting to `none` /
`0`). -/
structure ReplayState where
  running_since : String → Option Int
  exclusive : String → Int

/-- `add_interval`: clip a closed interval to the window and add the
positive clipped span to the task's exclusive total. -/
def add_interval (exclusive : String → Int) (task_id : String)
    (start stop : Int) (window_start : Option Int) (window_end : Int) :
    String → Int :=
  let clipped_start := match window_start with | none => start | some w => max start w
  let clipped_end := min stop window_end
  if clipped_end > clipped_start then
    fun x => if x = task_id then exclusive x + (clipped_end - clipped_start) else exclusive x
  else exclusive

/-- One event of the exclusive-seconds replay. -/
def replay_step (window_start : Option Int) (window_end : Int)
    (st : ReplayState) (e : Event) : ReplayState :=
  if e.event_type = "start" ∨ e.event_type = "resume" then
    match st.running_since e.task_id with
    | some _ => st
    | none =>
        { st with running_since := fun x =>
            if x = e.task_id then some e.ts else st.running_since x }
  else if e.event_type = "pause" ∨ e.event_type = "stop" then
    match st.running_since e.task_id with
    | some start =>
        { running_since := fun x => if x = e.task_id then none else st.running_since x,
          exclusive := add_interval st.exclusive e.task_id start e.ts
            window_start window_end }
    | none => st
  else st

/-- `replay_exclusive_seconds`: fold the full event log in `(ts, id)`
order, then close any still-open interval at `window_end`. -/
def replay_exclusive_seconds (events : List Event) (window_start : Option Int)
    (window_end : Int) : String → Int :=
  let st := (sortEvents events).foldl (replay_step window_start window_end)
    ⟨fun _ => none, fun _ => 0⟩
  fun task_id =>
    match st.running_since task_id with
    | some start =>
        add_interval st.exclusive task_id start window_end window_start window_end task_id
    | none => st.exclusive task_id

/-- `children_by_parent` as built by `derive_inclusive_seconds`: the ids
of the rows of `tasks` whose `parent_id` is the given id, in row order. -/
def children_by_parent (tasks : List Task) (parent_id : String) : List String :=
  (tasks.filter (fun t => decide (t.parent_id = some parent_id))).map (·.id)

/-- Lookup in the inclusive-seconds memo table. -/
def lookupMemo : List (String × Int) → String → Option Int
  | [], _ => none
  | (k, v) :: rest, x => if x = k then some v else lookupMemo rest x

/-- `compute_inclusive`: memoized DFS; the visiting set breaks cycles by
falling back to the node's exclusive value.  The fuel bounds recursion
depth (the real recursion terminates because `visiting` grows inside the
finite id universe; fuel exhaustion mirrors the cycle fallback). -/
def compute_inclusive (children : String → List String)
    (exclusive : String → Int) : Nat → String → List (String × Int) →
    List String → Int × List (String × Int)
  | 0, task_id, memo, _ => (exclusive task_id, memo)
  | fuel + 1, task_id, memo, visiting =>
    match lookupMemo memo task_id with
    | some cached => (cached, memo)
    | none =>
      if visiting.contains task_id then (exclusive task_id, memo)
      else
        let r := (children task_id).foldl
          (fun (acc : Int × List (String × Int)) c =>
            let cr := compute_inclusive children exclusive fuel c acc.2
              (task_id :: visiting)
            (acc.1 + cr.1, cr.2)) (0, memo)
        let total := exclusive task_id + r.1
        (total, (task_id, total) :: r.2)

/-- `derive_inclusive_seconds`: run the memoized DFS from every task. -/
def derive_inclusive_seconds (tasks : List Task) (exclusive : String → Int) :
    List (String × Int) :=
  tasks.foldl (fun memo task =>
    (compute_inclusive (children_by_parent tasks) exclusive (tasks.length + 1)
      task.id memo []).2) []

/-- One public Task Service call, with its caller-supplied arguments,
the clock reading and any fresh UUIDs as explicit parameters. -/
inductive Op where
  | createTask (title : String) (parent_id : Option String) (new_task_id : String) (now : Int)
  | renameTask (task_id title : String)
  | deleteTasks (task_ids : List String) (hard_delete : Bool) (now : Int)
  | reparentTask (task_id : String) (new_parent_id : Option String) (now : Int)
  | startTask (task_id : String) (now : Int)
  | pauseTask (task_id : String) (now : Int)
  | resumeTask (task_id : String) (now : Int)
  | stopTask (task_id : String) (now : Int)
  | insertSubtaskAndStart (parent_task_id title child_task_id : String) (now : Int)
  | addTag (task_id tag_name new_tag_id : String) (now : Int)
  | removeTag (task_id tag_name : String) (now : Int)
  | respondRestSuggestion (suggestion_id : Int) (accept : Bool) (now : Int)

/-- Dispatch one Task Service operation on the store. -/
def step (op : Op) (s : Db) : Except String Db :=
  match op with
  | .createTask title parent_id new_task_id now =>
      (create_task s title parent_id new_task_id now).map (·.2)
  | .renameTask task_id title => rename_task s task_id title
  | .deleteTasks task_ids hard_delete now => delete_tasks s task_ids hard_delete now
  | .reparentTask task_id new_parent_id now => reparent_task s task_id new_parent_id now
  | .startTask task_id now => start_task s task_id now
  | .pauseTask task_id now => pause_task s task_id now
  | .resumeTask task_id now => resume_task s task_id now
  | .stopTask task_id now => stop_task s task_id now
  | .insertSubtaskAndStart parent_task_id title child_task_id now =>
      (insert_subtask_and_start s parent_task_id title child_task_id now).map (·.2)
  | .addTag task_id tag_name new_tag_id now => add_tag_to_task s task_id tag_name new_tag_id now
  | .removeTag task_id tag_name now => remove_tag_from_task s task_id tag_name now
  | .respondRestSuggestion suggestion_id accept now =>
      respond_rest_suggestion s suggestion_id accept now

/-- The global invariant of claim C1: at most one non-archived task row
has status `running`. -/
def AtMostOneRunning (s : Db) : Prop :=
  (s.tasks.filter (fun t => decide (t.status = "running" ∧ t.archived_at = none))).length ≤ 1

/-- The primary-key invariant of the `tasks` table. -/
def TaskIdsNodup (s : Db) : Prop :=
  (s.tasks.map (·.id)).Nodup

/-- The invariant of claim C9: at most one rest-suggestion row is
pending. -/
def AtMostOnePending (s : Db) : Prop :=
  (s.suggestions.filter (fun r => decide (r.status = "pending"))).length ≤ 1

/-- Modelled from the spec (claim C4's pseudocode): the rest score as a
sum of the three independent rule contributions. -/
def spec_rest_score (focus_seconds switch_count_30m : Int)
    (deviation_ratio : ℚ) : Int :=
  (if focus_seconds ≥ 5400 then 4 else if focus_seconds ≥ 3000 then 2 else 0) +
  (if switch_count_30m ≥ 6 then 4 else if switch_count_30m ≥ 3 then 2 else 0) +
  (if deviation_ratio ≥ 1 then 2 else if deviation_ratio ≥ 1 / 2 then 1 else 0)

/-- Modelled from the spec (claim C4's pseudocode): the reasons list as
the concatenation of the three rules' contributions, in rule order. -/
def spec_rest_reasons_core (focus_seconds switch_count_30m : Int)
    (deviation_ratio : ℚ) : List String :=
  (if focus_seconds ≥ 5400 then ["continuous focus reached 90+ minutes"]
   else if focus_seconds ≥ 3000 then ["continuous focus reached 50+ minutes"] else []) ++
  (if switch_count_30m ≥ 6 then ["task switching was very frequent in the last 30 minutes"]
   else if switch_count_30m ≥ 3 then ["task switching increased in the last 30 minutes"] else []) ++
  (if deviation_ratio ≥ 1 then ["focus duration is significantly above historical median"]
   else if deviation_ratio ≥ 1 / 2 then ["focus duration is above historical median"] else [])

/-- Modelled from the spec (claim C4): the reasons list with the stable
fallback. -/
def spec_rest_reasons (focus_seconds switch_count_30m : Int)
    (deviation_ratio : ℚ) : List String :=
  let core := spec_rest_reasons_core focus_seconds switch_count_30m deviation_ratio
  if core = [] then ["current rhythm is stable; continuing is reasonable"] else core

/-- Modelled from the spec (claim C4): the score-to-minutes mapping. -/
def spec_suggested_minutes (score : Int) : Int :=
  if score ≥ 7 then 15 else if score ≥ 4 then 8 else if score ≥ 2 then 3 else 0

/-- Modelled from the spec (claim C5): the deviation-ratio formula over a
given list of closed-session lengths — 0 when the caller-provided
focus seconds are non-positive or fewer than two sessions exist;
otherwise drop the last session, take the integer median of the rest as
baseline, and return `max 0 ((focus − median) / median)`. -/
def spec_deviation_ratio (focus_seconds : Int) (sessions : List Int) : ℚ :=
  if focus_seconds ≤ 0 ∨ sessions.length < 2 then 0
  else
    let baseline := median_i64 sessions.dropLast
    if baseline ≤ 0 then 0
    else max 0 (((focus_seconds - baseline : Int) : ℚ) / (baseline : ℚ))

/-! ## Claim C4: the rest rule evaluation -/

/-- C4: for every input triple, `evaluate_rest_rules` produces the
suggested minutes mapped from the score (15 / 8 / 3 / 0 at thresholds
7 / 4 / 2) and the reasons in the stated rule order, with the stable
fallback reason exactly when no rule fires. -/
theorem evaluate_rest_rules_matches_spec (focus_seconds switch_count_30m : Int)
    (deviation_ratio : ℚ) :
    evaluate_rest_rules focus_seconds switch_count_30m deviation_ratio =
      (spec_suggested_minutes
        (spec_rest_score focus_seconds switch_count_30m deviation_ratio),
       spec_rest_reasons focus_seconds switch_count_30m deviation_ratio) := by
  by_cases h1 : (5400 : Int) ≤ focus_seconds <;>
    by_cases h2 : (3000 : Int) ≤ focus_seconds <;>
    by_cases h3 : (6 : Int) ≤ switch_count_30m <;>
    by_cases h4 : (3 : Int) ≤ switch_count_30m <;>
    by_cases h5 : (1 : ℚ) ≤ deviation_ratio <;>
    by_cases h6 : (2⁻¹ : ℚ) ≤ deviation_ratio <;>
    simp [evaluate_rest_rules, spec_suggested_minutes, spec_rest_score,
      spec_rest_reasons, spec_rest_reasons_core, h1, h2, h3, h4, h5, h6]

/-! ## Claim C5: the deviation ratio -/

/-- C5: `compute_deviation_ratio` equals the spec's formula — 0 when the
caller-provided focus seconds are non-positive or fewer than two closed
sessions exist up to the trigger; otherwise, with the last closed session
dropped, the integer median of the remaining lengths as baseline, 0 when
that median is non-positive, else `max 0 ((focus − median) / median)`
with the caller-provided focus seconds as the current value. -/
theorem compute_deviation_ratio_matches_spec (events : List Event)
    (task_id : String) (focus_seconds until_ts : Int) :
    compute_deviation_ratio events task_id focus_seconds until_ts =
      spec_deviation_ratio focus_seconds
        (completed_session_durations events task_id until_ts) := by
  unfold compute_deviation_ratio spec_deviation_ratio
  by_cases h1 : focus_seconds ≤ 0
  · simp [h1]
  · have h3 : 0 < focus_seconds := lt_of_not_le h1
    by_cases h2 : (completed_session_durations events task_id until_ts).length < 2
    · simp [h1, h2]
    · simp [h1, h2, h3]

/-! ## Claim C10: `delete_tasks` with blank-trimming ids -/

/-- The expansion loop skips every root whose trimmed id is empty. -/
theorem expand_go_all_blank (s : Db) :
    ∀ (root_task_ids : List String) (seen expanded : List String),
    (∀ x ∈ root_task_ids, rustTrim x = "") →
    expand_go s root_task_ids seen expanded = .ok expanded := by
  intro root_task_ids
  induction root_task_ids with
  | nil => intro seen expanded _; rfl
  | cons a rest ih =>
      intro seen expanded h
      have ha : rustTrim a = "" := h a (by simp)
      simp only [expand_go, ha, if_pos]
      exact ih seen expanded (fun x hx => h x (by simp [hx]))

/-- C10: `delete_tasks` on a non-empty id list whose entries all trim to
the empty string succeeds and leaves the store unchanged. -/
theorem delete_tasks_all_blank (s : Db) (task_ids : List String)
    (hard_delete : Bool) (now : Int) (hne : task_ids ≠ [])
    (hblank : ∀ x ∈ task_ids, rustTrim x = "") :
    delete_tasks s task_ids hard_delete now = .ok s := by
  unfold delete_tasks expand_unique_subtree_ids
  rw [expand_go_all_blank s task_ids [] [] hblank]
  cases task_ids with
  | nil => exact absurd rfl hne
  | cons a rest => rfl

/-- A sample store with one stopped root task. -/
def sampleStopped : Db :=
  ⟨[⟨"a", none, "A", "stopped", 0, none⟩], [], [], [], [], 1, 1⟩

/-- A sample store with one idle root task. -/
def sampleIdle : Db :=
  ⟨[⟨"a", none, "A", "idle", 0, none⟩], [], [], [], [], 1, 1⟩

/-- Witness for C10: deleting `["  "]` from the sample store is a no-op
success. -/
theorem delete_tasks_all_blank_witness :
    delete_tasks sampleIdle ["  "] true 5 = .ok sampleIdle :=
  delete_tasks_all_blank sampleIdle ["  "] true 5 (by decide) (by decide)

/-! ## Claim C2: `start_task` on a stopped task -/

/-- C2 counterexample: on a store whose only task is stopped,
`start_task` succeeds, sets the status to running and appends a `start`
event — stopped is not terminal for a direct `start_task` call. -/
theorem start_task_restarts_stopped_counterexample :
    start_task sampleStopped "a" 10 =
      .ok { sampleStopped with
              tasks := [⟨"a", none, "A", "running", 0, none⟩],
              events := [⟨1, "a", "start", 10, none⟩],
              next_event_id := 2 } := by
  decide

/-- C2 amended: `start_task` on a stopped task behaves like starting an
idle task — when no task is running it succeeds, sets status to running
and appends a `start` event (followed by the post-commit task-switch
advisor). -/
theorem start_task_on_stopped (s : Db) (task_id : String) (now : Int)
    (st : TaskState) (h1 : get_task_state s task_id = .ok st)
    (h2 : st.status = "stopped") (h3 : find_running_task s = none) :
    start_task s task_id now =
      .ok (maybe_create_task_switch_suggestion
        (append_event (update_task_status s task_id "running") task_id "start" now none)
        (latest_focus_task s) task_id now) := by
  unfold start_task
  rw [h1, h3]
  simp [h2]

/-- Witness for the amended C2 at the sample store. -/
theorem start_task_on_stopped_witness :
    start_task sampleStopped "a" 10 =
      .ok (maybe_create_task_switch_suggestion
        (append_event (update_task_status sampleStopped "a" "running") "a" "start" 10 none)
        (latest_focus_task sampleStopped) "a" 10) :=
  start_task_on_stopped sampleStopped "a" 10 ⟨none, "stopped"⟩ (by decide) (by decide)
    (by decide)

/-! ## Claim C3: the auto-resume check -/

/-- The three auto-resume conditions of the spec, evaluated on the
in-transaction state (the state in which the stopped child has already
been set to stopped): the parent is currently paused, the most recent
event on the parent (by `ts` desc, `id` desc) is a `pause` recording
`child_id` equal to the stopped task, and no non-archived task is
running. -/
def auto_resume_conditions (s : Db) (parent_task_id child_task_id : String) : Prop :=
  ((s.tasks.find? (fun t =>
      decide (t.id = parent_task_id ∧ t.archived_at = none))).map (·.status) =
    some "paused") ∧
  ((latest_event (s.events.filter (fun e => decide (e.task_id = parent_task_id)))).map
      (fun e => (e.event_type, e.payload.bind (·.child_id))) =
    some ("pause", some child_task_id)) ∧
  find_running_task s = none

instance (s : Db) (parent_task_id child_task_id : String) :
    Decidable (auto_resume_conditions s parent_task_id child_task_id) := by
  unfold auto_resume_conditions; infer_instance

/-- Functional characterization of the auto-resume check (shared
lemma). -/
theorem maybe_auto_resume_parent_eq (s : Db)
    (parent_task_id child_task_id : String) (ts : Int) :
    maybe_auto_resume_parent s parent_task_id child_task_id ts =
      if auto_resume_conditions s parent_task_id child_task_id then
        (true,
          append_event (update_task_status s parent_task_id "running")
            parent_task_id "resume" ts
            (some { reason := some "child_stopped",
                    child_id := some child_task_id }))
      else (false, s) := by
  by_cases hc : auto_resume_conditions s parent_task_id child_task_id
  · rw [if_pos hc]
    obtain ⟨h1, h2, h3⟩ := hc
    obtain ⟨e, hL, hfe⟩ := Option.map_eq_some'.mp h2
    have he : e.event_type = "pause" := congrArg Prod.fst hfe
    have hch : e.payload.bind (·.child_id) = some child_task_id := congrArg Prod.snd hfe
    unfold find_running_task at h3
    have hrn : s.tasks.find? (fun t =>
        decide (t.status = "running" ∧ t.archived_at = none)) = none :=
      Option.map_eq_none'.mp h3
    unfold maybe_auto_resume_parent
    rw [h1, if_neg (not_not_intro rfl), hL]
    dsimp only
    rw [he, if_neg (not_not_intro rfl), hch, if_neg (not_not_intro rfl), hrn]
    rfl
  · rw [if_neg hc]
    unfold maybe_auto_resume_parent
    by_cases h1 : (s.tasks.find? (fun t =>
        decide (t.id = parent_task_id ∧ t.archived_at = none))).map (·.status) = some "paused"
    · rw [h1, if_neg (not_not_intro rfl)]
      cases hLe : latest_event (s.events.filter
          (fun e => decide (e.task_id = parent_task_id))) with
      | none => rfl
      | some e =>
        dsimp only
        by_cases he : e.event_type = "pause"
        · rw [he, if_neg (not_not_intro rfl)]
          by_cases hch : e.payload.bind (·.child_id) = some child_task_id
          · have h3 : ¬ find_running_task s = none := fun h3 =>
              hc ⟨h1, by rw [hLe]; simp [he, hch], h3⟩
            unfold find_running_task at h3
            cases ho : s.tasks.find? (fun t =>
                decide (t.status = "running" ∧ t.archived_at = none)) with
            | none => exact absurd (by rw [ho]; rfl) h3
            | some r =>
                rw [hch, if_neg (not_not_intro rfl)]
                rfl
          · rw [if_pos hch]
        · rw [if_pos he]
    · rw [if_pos h1]

/-- C3: `maybe_auto_resume_parent` fires exactly when the three
conditions hold — the parent is currently paused, the most recent event
on the parent is a `pause` recording `child_id` equal to the stopped
task, and no non-archived task is running after the child was set to
stopped — and then sets the parent running and appends a `resume` event
on the parent with payload `{reason: "child_stopped", child_id}` in the
same transaction; otherwise it leaves the state unchanged. -/
theorem maybe_auto_resume_parent_characterization (s : Db)
    (parent_task_id child_task_id : String) (ts : Int) :
    maybe_auto_resume_parent s parent_task_id child_task_id ts =
      if auto_resume_conditions s parent_task_id child_task_id then
        (true,
          append_event (update_task_status s parent_task_id "running")
            parent_task_id "resume" ts
            (some { reason := some "child_stopped",
                    child_id := some child_task_id }))
      else (false, s) :=
  maybe_auto_resume_parent_eq s parent_task_id child_task_id ts

/-! ## Claim C8: idempotent transitions -/

/-- The current status of a non-archived task row, as the service reads
it. -/
def task_status (s : Db) (task_id : String) : Option String :=
  (s.tasks.find? (fun t => decide (t.id = task_id ∧ t.archived_at = none))).map (·.status)

/-- C8: `start_task` on a running task, `pause_task` on a paused task,
`resume_task` on a running task, `stop_task` on a stopped task, and
`respond_rest_suggestion` (with a positive id) on a suggestion that
exists but is not pending all succeed and leave the store unchanged. -/
theorem idempotent_transitions (s : Db) (task_id : String) (now : Int)
    (suggestion_id : Int) (accept : Bool) :
    (task_status s task_id = some "running" → start_task s task_id now = .ok s) ∧
    (task_status s task_id = some "paused" → pause_task s task_id now = .ok s) ∧
    (task_status s task_id = some "running" → resume_task s task_id now = .ok s) ∧
    (task_status s task_id = some "stopped" → stop_task s task_id now = .ok s) ∧
    (0 < suggestion_id →
      (∀ r ∈ s.suggestions, ¬(r.id = suggestion_id ∧ r.status = "pending")) →
      (∃ r ∈ s.suggestions, r.id = suggestion_id) →
      respond_rest_suggestion s suggestion_id accept now = .ok s) := by
  refine ⟨?_, ?_, ?_, ?_, ?_⟩
  · intro h
    unfold start_task get_task_state
    unfold task_status at h
    set f := s.tasks.find? (fun t => decide (t.id = task_id ∧ t.archived_at = none)) with hf
    clear_value f
    cases f with
    | none => exact absurd h (by simp)
    | some t =>
        simp only [Option.map_some', Option.some.injEq] at h
        simp [h]
  · intro h
    unfold pause_task get_task_state
    unfold task_status at h
    set f := s.tasks.find? (fun t => decide (t.id = task_id ∧ t.archived_at = none)) with hf
    clear_value f
    cases f with
    | none => exact absurd h (by simp)
    | some t =>
        simp only [Option.map_some', Option.some.injEq] at h
        simp [h]
  · intro h
    unfold resume_task get_task_state
    unfold task_status at h
    set f := s.tasks.find? (fun t => decide (t.id = task_id ∧ t.archived_at = none)) with hf
    clear_value f
    cases f with
    | none => exact absurd h (by simp)
    | some t =>
        simp only [Option.map_some', Option.some.injEq] at h
        simp [h]
  · intro h
    unfold stop_task get_task_state
    unfold task_status at h
    set f := s.tasks.find? (fun t => decide (t.id = task_id ∧ t.archived_at = none)) with hf
    clear_value f
    cases f with
    | none => exact absurd h (by simp)
    | some t =>
        simp only [Option.map_some', Option.some.injEq] at h
        simp [h]
  · intro hpos hnone hex
    unfold respond_rest_suggestion
    rw [if_neg (by omega)]
    have hfilter : s.suggestions.filter
        (fun r => decide (r.id = suggestion_id ∧ r.status = "pending")) = [] := by
      rw [List.filter_eq_nil_iff]
      intro r hr
      simpa using hnone r hr
    rw [hfilter]
    simp only [List.length_nil, gt_iff_lt, lt_self_iff_false, if_false]
    obtain ⟨r, hr, hid⟩ := hex
    cases hfind : s.suggestions.find? (fun r => decide (r.id = suggestion_id)) with
    | none =>
        rw [List.find?_eq_none] at hfind
        exact absurd (by simpa using hid) (hfind r hr)
    | some r' => rfl

/-- A sample store with one running root task. -/
def sampleRunning : Db :=
  ⟨[⟨"a", none, "A", "running", 0, none⟩], [], [], [], [], 1, 1⟩

/-- A sample store with one paused root task. -/
def samplePaused : Db :=
  ⟨[⟨"a", none, "A", "paused", 0, none⟩], [], [], [], [], 1, 1⟩

/-- A sample store with one already-responded rest suggestion. -/
def sampleResponded : Db :=
  ⟨[], [], [], [],
   [⟨1, "task_switch", none, 0, 0, 0, 0, ["current rhythm is stable; continuing is reasonable"],
     "accepted", 0, some 2⟩], 1, 2⟩

/-- Witness for C8: each idempotent call on its sample store succeeds
without state change. -/
theorem idempotent_transitions_witness :
    start_task sampleRunning "a" 3 = .ok sampleRunning ∧
    pause_task samplePaused "a" 3 = .ok samplePaused ∧
    resume_task sampleRunning "a" 3 = .ok sampleRunning ∧
    stop_task sampleStopped "a" 3 = .ok sampleStopped ∧
    respond_rest_suggestion sampleResponded 1 true 3 = .ok sampleResponded :=
  ⟨(idempotent_transitions sampleRunning "a" 3 1 true).1 (by decide),
   (idempotent_transitions samplePaused "a" 3 1 true).2.1 (by decide),
   (idempotent_transitions sampleRunning "a" 3 1 true).2.2.1 (by decide),
   (idempotent_transitions sampleStopped "a" 3 1 true).2.2.2.1 (by decide),
   (idempotent_transitions sampleResponded "a" 3 1 true).2.2.2.2 (by decide)
     (by decide) (by decide)⟩

/-! ## Claim C6: the exclusive-seconds window bound -/

/-- The `(ts, id)` order as a proposition. -/
def eventLeP (a b : Event) : Prop :=
  a.ts < b.ts ∨ (a.ts = b.ts ∧ a.id ≤ b.id)

theorem mem_insertEvent {x e : Event} :
    ∀ {l : List Event}, x ∈ insertEvent e l ↔ x = e ∨ x ∈ l := by
  intro l
  induction l with
  | nil => simp [insertEvent]
  | cons g gs ih =>
      unfold insertEvent
      by_cases heg : eventLe e g
      · rw [if_pos heg]
        simp only [List.mem_cons]
      · rw [if_neg heg]
        simp only [List.mem_cons, ih]
        tauto

theorem pairwise_insertEvent {e : Event} :
    ∀ {l : List Event}, l.Pairwise eventLeP → (insertEvent e l).Pairwise eventLeP := by
  intro l
  induction l with
  | nil => intro _; simp [insertEvent, List.pairwise_cons]
  | cons g gs ih =>
      intro h
      rw [List.pairwise_cons] at h
      unfold insertEvent
      by_cases heg : eventLe e g
      · have hle : eventLeP e g := by
          unfold eventLeP
          unfold eventLe at heg
          exact of_decide_eq_true heg
        rw [if_pos heg, List.pairwise_cons]
        constructor
        · intro x hx
          rcases List.mem_cons.mp hx with hx | hx
          · exact hx ▸ hle
          · have hgx := h.1 x hx
            unfold eventLeP at hle hgx ⊢
            omega
        · exact List.pairwise_cons.mpr h
      · have hge : eventLeP g e := by
          have hfalse : eventLe e g = false := by
            revert heg; cases eventLe e g <;> simp
          unfold eventLe at hfalse
          have hne := of_decide_eq_false hfalse
          unfold eventLeP at hne ⊢
          omega
        rw [if_neg heg, List.pairwise_cons]
        constructor
        · intro x hx
          rcases mem_insertEvent.mp hx with hx | hx
          · exact hx ▸ hge
          · exact h.1 x hx
        · exact ih h.2

theorem sortEvents_pairwise (es : List Event) :
    (sortEvents es).Pairwise eventLeP := by
  induction es with
  | nil => simp [sortEvents]
  | cons e es ih => exact pairwise_insertEvent ih

theorem add_interval_self (exclusive : String → Int) (tid : String)
    (a b w we : Int) :
    add_interval exclusive tid a b (some w) we tid =
      exclusive tid + max 0 (min b we - max a w) := by
  unfold add_interval
  dsimp only
  rw [apply_ite (fun g : String → Int => g tid)]
  split
  · rw [if_pos rfl]; omega
  · omega

theorem add_interval_other (exclusive : String → Int) (tid : String)
    (a b : Int) (ws : Option Int) (we : Int) (x : String) (hx : x ≠ tid) :
    add_interval exclusive tid a b ws we x = exclusive x := by
  unfold add_interval
  rw [apply_ite (fun g : String → Int => g x)]
  split <;> simp [hx]

/-- The invariant carried through the replay fold, for one task `t` and a
bounded window: if `t` has an open interval that began at `s`, closing it
now can add at most `max 0 (we − max s ws)` more; if it has none, any
future contribution starts no earlier than `m`, a lower bound on all
remaining timestamps. -/
def ReplayInv (ws we : Int) (t : String) (st : ReplayState) (m : Int) : Prop :=
  match st.running_since t with
  | some s => st.exclusive t + max 0 (we - max s ws) ≤ we - ws ∧ s ≤ m
  | none => st.exclusive t + max 0 (we - max m ws) ≤ we - ws

/-- What the invariant leaves at the end of the fold. -/
def ReplayFinal (ws we : Int) (t : String) (st : ReplayState) : Prop :=
  match st.running_since t with
  | some s => st.exclusive t + max 0 (we - max s ws) ≤ we - ws
  | none => st.exclusive t ≤ we - ws

theorem replay_step_inv (ws we : Int) (t : String) (st : ReplayState)
    (e : Event) (m : Int) (hm : m ≤ e.ts) (hinv : ReplayInv ws we t st m) :
    ReplayInv ws we t (replay_step (some ws) we st e) e.ts := by
  have hmono : ∀ st' : ReplayState, st'.running_since t = st.running_since t →
      st'.exclusive t = st.exclusive t → ReplayInv ws we t st' e.ts := by
    intro st' h1 h2
    unfold ReplayInv at hinv ⊢
    rw [h1, h2]
    cases hrt : st.running_since t with
    | some s => rw [hrt] at hinv; exact ⟨hinv.1, le_trans hinv.2 hm⟩
    | none => rw [hrt] at hinv; dsimp only at hinv ⊢; omega
  unfold replay_step
  by_cases h1 : e.event_type = "start" ∨ e.event_type = "resume"
  · rw [if_pos h1]
    cases hrs : st.running_since e.task_id with
    | some s0 => exact hmono st rfl rfl
    | none =>
        by_cases ht : t = e.task_id
        · subst ht
          unfold ReplayInv at hinv ⊢
          rw [hrs] at hinv
          dsimp only at hinv ⊢
          rw [if_pos rfl]
          dsimp only
          refine ⟨?_, le_refl _⟩
          omega
        · refine hmono _ ?_ rfl
          dsimp only
          rw [if_neg ht]
  · rw [if_neg h1]
    by_cases h2 : e.event_type = "pause" ∨ e.event_type = "stop"
    · rw [if_pos h2]
      cases hrs : st.running_since e.task_id with
      | some s0 =>
          by_cases ht : t = e.task_id
          · subst ht
            unfold ReplayInv at hinv ⊢
            rw [hrs] at hinv
            dsimp only at hinv ⊢
            rw [if_pos rfl, add_interval_self]
            dsimp only
            obtain ⟨hb, hsm⟩ := hinv
            omega
          · refine hmono _ ?_ ?_
            · dsimp only; rw [if_neg ht]
            · dsimp only
              exact add_interval_other st.exclusive e.task_id s0 e.ts (some ws) we t ht
      | none => exact hmono st rfl rfl
    · rw [if_neg h2]
      exact hmono st rfl rfl

theorem replay_fold_inv (ws we : Int) (t : String) :
    ∀ (l : List Event) (st : ReplayState) (m : Int),
    l.Pairwise (fun a b => a.ts ≤ b.ts) →
    (∀ e ∈ l, m ≤ e.ts) →
    ReplayInv ws we t st m →
    ReplayFinal ws we t (l.foldl (replay_step (some ws) we) st) := by
  intro l
  induction l with
  | nil =>
      intro st m _ _ hinv
      unfold ReplayInv at hinv
      unfold ReplayFinal
      simp only [List.foldl_nil]
      cases hrt : st.running_since t with
      | some s => rw [hrt] at hinv; exact hinv.1
      | none => rw [hrt] at hinv; dsimp only at hinv ⊢; omega
  | cons e l ih =>
      intro st m hpw hmem hinv
      rw [List.pairwise_cons] at hpw
      refine ih (replay_step (some ws) we st e) e.ts hpw.2 hpw.1 ?_
      exact replay_step_inv ws we t st e m (hmem e (by simp)) hinv

/-- C6: for every event log and every bounded window
`[window_start, window_end)` with `window_start ≤ window_end`, the
exclusive seconds the replay assigns to any task are at most the window
length. -/
theorem replay_exclusive_seconds_le_window (events : List Event)
    (window_start window_end : Int) (t : String)
    (hw : window_start ≤ window_end) :
    replay_exclusive_seconds events (some window_start) window_end t ≤
      window_end - window_start := by
  unfold replay_exclusive_seconds
  have hfinal : ReplayFinal window_start window_end t
      ((sortEvents events).foldl (replay_step (some window_start) window_end)
        ⟨fun _ => none, fun _ => 0⟩) := by
    have hpw : (sortEvents events).Pairwise (fun a b => a.ts ≤ b.ts) :=
      (sortEvents_pairwise events).imp (fun hab => by
        unfold eventLeP at hab; omega)
    cases hs : sortEvents events with
    | nil =>
        unfold ReplayFinal
        simp only [List.foldl_nil]
        show (0 : Int) ≤ window_end - window_start
        omega
    | cons e0 rest =>
        rw [hs] at hpw
        rw [List.pairwise_cons] at hpw
        refine replay_fold_inv window_start window_end t (e0 :: rest)
          ⟨fun _ => none, fun _ => 0⟩ e0.ts ?_ ?_ ?_
        · exact List.pairwise_cons.mpr hpw
        · intro e he
          rcases List.mem_cons.mp he with he | he
          · exact he ▸ le_refl _
          · exact hpw.1 e he
        · unfold ReplayInv
          dsimp only
          omega
  unfold ReplayFinal at hfinal
  cases hrt : ((sortEvents events).foldl (replay_step (some window_start) window_end)
      ⟨fun _ => none, fun _ => 0⟩).running_since t with
  | some s =>
      rw [hrt] at hfinal
      dsimp only at hfinal ⊢
      rw [add_interval_self]
      omega
  | none =>
      rw [hrt] at hfinal
      dsimp only at hfinal ⊢
      exact hfinal

/-- Witness for C6 at a concrete log and window. -/
theorem replay_exclusive_seconds_le_window_witness :
    replay_exclusive_seconds
      [⟨1, "a", "start", 0, none⟩, ⟨2, "a", "pause", 1000, none⟩,
       ⟨3, "a", "resume", 1100, none⟩]
      (some 900) 1200 "a" ≤ 1200 - 900 :=
  replay_exclusive_seconds_le_window _ 900 1200 "a" (by decide)

/-! ## Claim C7: the inclusive decomposition -/

/-- The memo-free inclusive total: a task's exclusive seconds plus the
inclusive totals of its children, to a given recursion depth. -/
def inclusive_pure (children : String → List String) (exclusive : String → Int) :
    Nat → String → Int
  | 0, t => exclusive t
  | fuel + 1, t =>
      exclusive t + ((children t).map (inclusive_pure children exclusive fuel)).sum

/-- In a ranked forest (children have smaller rank), a rank-0 node has no
children. -/
theorem children_eq_nil_of_rank_zero {children : String → List String}
    {rank : String → Nat}
    (hchild : ∀ p c, c ∈ children p → rank c < rank p) {t : String}
    (h0 : rank t = 0) : children t = [] := by
  cases hc : children t with
  | nil => rfl
  | cons c cs =>
      have := hchild t c (by rw [hc]; exact List.mem_cons_self c cs)
      omega

theorem inclusive_pure_rank_zero {children : String → List String}
    {exclusive : String → Int} {rank : String → Nat}
    (hchild : ∀ p c, c ∈ children p → rank c < rank p) {t : String}
    (h0 : rank t = 0) (fuel : Nat) :
    inclusive_pure children exclusive fuel t = exclusive t := by
  cases fuel with
  | zero => rfl
  | succ fuel =>
      simp [inclusive_pure, children_eq_nil_of_rank_zero hchild h0]

/-- Any fuel at least the node's rank computes the same inclusive
total. -/
theorem inclusive_pure_congr {children : String → List String}
    {exclusive : String → Int} {rank : String → Nat}
    (hchild : ∀ p c, c ∈ children p → rank c < rank p) :
    ∀ (f g : Nat) (t : String), rank t ≤ f → rank t ≤ g →
      inclusive_pure children exclusive f t = inclusive_pure children exclusive g t := by
  intro f
  induction f with
  | zero =>
      intro g t h1 h2
      have h0 : rank t = 0 := Nat.le_zero.mp h1
      rw [inclusive_pure_rank_zero hchild h0, inclusive_pure_rank_zero hchild h0]
  | succ f ih =>
      intro g t h1 h2
      by_cases h0 : rank t = 0
      · rw [inclusive_pure_rank_zero hchild h0, inclusive_pure_rank_zero hchild h0]
      · cases g with
        | zero => omega
        | succ g =>
            simp only [inclusive_pure]
            have hmap : (children t).map (inclusive_pure children exclusive f) =
                (children t).map (inclusive_pure children exclusive g) :=
              List.map_congr_left (fun c hc => by
                have := hchild t c hc
                exact ih g c (by omega) (by omega))
            rw [hmap]

/-- Unfolding the inclusive total at the node's own rank. -/
theorem inclusive_pure_unfold {children : String → List String}
    {exclusive : String → Int} {rank : String → Nat}
    (hchild : ∀ p c, c ∈ children p → rank c < rank p) (t : String) :
    inclusive_pure children exclusive (rank t) t =
      exclusive t + ((children t).map
        (fun c => inclusive_pure children exclusive (rank c) c)).sum := by
  cases h0 : rank t with
  | zero =>
      simp [inclusive_pure_rank_zero hchild h0,
        children_eq_nil_of_rank_zero hchild h0]
  | succ r =>
      simp only [inclusive_pure]
      have hmap : (children t).map (inclusive_pure children exclusive r) =
          (children t).map (fun c => inclusive_pure children exclusive (rank c) c) :=
        List.map_congr_left (fun c hc => by
          have := hchild t c hc
          exact inclusive_pure_congr hchild r (rank c) c (by omega) (by omega))
      rw [hmap]

/-- Every memo entry carries the pure inclusive total of its key. -/
def MemoInv (children : String → List String) (exclusive : String → Int)
    (rank : String → Nat) (memo : List (String × Int)) : Prop :=
  ∀ x v, lookupMemo memo x = some v →
    v = inclusive_pure children exclusive (rank x) x

/-- The correctness contract of `compute_inclusive` at a given fuel. -/
def ComputeOK (children : String → List String) (exclusive : String → Int)
    (rank : String → Nat) (fuel : Nat) : Prop :=
  ∀ t memo visiting, MemoInv children exclusive rank memo → rank t < fuel →
    (∀ x ∈ visiting, rank t < rank x) →
    (compute_inclusive children exclusive fuel t memo visiting).1 =
        inclusive_pure children exclusive (rank t) t ∧
    MemoInv children exclusive rank
      (compute_inclusive children exclusive fuel t memo visiting).2 ∧
    lookupMemo (compute_inclusive children exclusive fuel t memo visiting).2 t =
        some (inclusive_pure children exclusive (rank t) t) ∧
    ∀ x, (lookupMemo memo x).isSome = true →
      (lookupMemo (compute_inclusive children exclusive fuel t memo visiting).2 x).isSome = true

theorem compute_children_fold_ok {children : String → List String}
    {exclusive : String → Int} {rank : String → Nat} {fuel : Nat}
    (hok : ComputeOK children exclusive rank fuel) :
    ∀ (cs : List String) (acc : Int × List (String × Int)) (visiting : List String),
      MemoInv children exclusive rank acc.2 →
      (∀ c ∈ cs, rank c < fuel ∧ ∀ x ∈ visiting, rank c < rank x) →
      (cs.foldl (fun acc c =>
        let cr := compute_inclusive children exclusive fuel c acc.2 visiting
        (acc.1 + cr.1, cr.2)) acc).1 =
          acc.1 + (cs.map (fun c => inclusive_pure children exclusive (rank c) c)).sum ∧
      MemoInv children exclusive rank (cs.foldl (fun acc c =>
        let cr := compute_inclusive children exclusive fuel c acc.2 visiting
        (acc.1 + cr.1, cr.2)) acc).2 ∧
      (∀ x, (lookupMemo acc.2 x).isSome = true →
        (lookupMemo (cs.foldl (fun acc c =>
          let cr := compute_inclusive children exclusive fuel c acc.2 visiting
          (acc.1 + cr.1, cr.2)) acc).2 x).isSome = true) ∧
      (∀ c ∈ cs, lookupMemo (cs.foldl (fun acc c =>
        let cr := compute_inclusive children exclusive fuel c acc.2 visiting
        (acc.1 + cr.1, cr.2)) acc).2 c =
          some (inclusive_pure children exclusive (rank c) c)) := by
  intro cs
  induction cs with
  | nil =>
      intro acc visiting hmemo _
      refine ⟨by simp, hmemo, fun x hx => hx, by simp⟩
  | cons c cs ih =>
      intro acc visiting hmemo hc
      have hcc := hc c (by simp)
      obtain ⟨h1, h2, h3, h4⟩ := hok c acc.2 visiting hmemo hcc.1 hcc.2
      simp only [List.foldl_cons]
      obtain ⟨i1, i2, i3, i4⟩ := ih
        (acc.1 + (compute_inclusive children exclusive fuel c acc.2 visiting).1,
         (compute_inclusive children exclusive fuel c acc.2 visiting).2)
        visiting h2 (fun c' hc' => hc c' (by simp [hc']))
      refine ⟨?_, i2, ?_, ?_⟩
      · rw [i1]
        dsimp only
        rw [h1]
        simp only [List.map_cons, List.sum_cons]
        omega
      · intro x hx
        exact i3 x (h4 x hx)
      · intro c' hc'
        rcases List.mem_cons.mp hc' with hc' | hc'
        · subst hc'
          have hs : (lookupMemo (compute_inclusive children exclusive fuel c'
              acc.2 visiting).2 c').isSome = true := by rw [h3]; rfl
          have hs2 := i3 c' hs
          obtain ⟨v, hv⟩ := Option.isSome_iff_exists.mp hs2
          rw [hv, i2 c' v hv]
        · exact i4 c' hc'

theorem lookupMemo_cons (k : String) (v : Int) (rest : List (String × Int))
    (x : String) :
    lookupMemo ((k, v) :: rest) x = if x = k then some v else lookupMemo rest x := rfl

theorem compute_ok_all {children : String → List String}
    {exclusive : String → Int} {rank : String → Nat}
    (hchild : ∀ p c, c ∈ children p → rank c < rank p) :
    ∀ fuel, ComputeOK children exclusive rank fuel := by
  intro fuel
  induction fuel with
  | zero => intro t memo visiting _ ht _; omega
  | succ fuel ih =>
      intro t memo visiting hmemo ht hvis
      simp only [compute_inclusive]
      cases hlook : lookupMemo memo t with
      | some v =>
          dsimp only
          have hv := hmemo t v hlook
          refine ⟨hv, hmemo, by rw [hlook, hv], fun x hx => hx⟩
      | none =>
          dsimp only
          have hnotvis : ¬ (visiting.contains t = true) := by
            intro hcon
            exact absurd (hvis t (List.elem_iff.mp hcon)) (Nat.lt_irrefl _)
          rw [if_neg hnotvis]
          dsimp only
          obtain ⟨f1, f2, f3, f4⟩ := compute_children_fold_ok ih (children t)
            (0, memo) (t :: visiting) hmemo (by
              intro c hc
              have hcr := hchild t c hc
              refine ⟨by omega, ?_⟩
              intro x hx
              rcases List.mem_cons.mp hx with hx | hx
              · subst hx; omega
              · have := hvis x hx; omega)
          set R := (children t).foldl (fun acc c =>
            let cr := compute_inclusive children exclusive fuel c acc.2 (t :: visiting)
            (acc.1 + cr.1, cr.2)) (0, memo) with hR
          have htotal : exclusive t + R.1 = inclusive_pure children exclusive (rank t) t := by
            rw [f1, inclusive_pure_unfold hchild t]
            dsimp only
            omega
          refine ⟨htotal, ?_, ?_, ?_⟩
          · intro x v hv
            rw [lookupMemo_cons] at hv
            by_cases hx : x = t
            · rw [if_pos hx] at hv
              subst hx
              exact (Option.some_inj.mp hv).symm.trans htotal
            · rw [if_neg hx] at hv
              exact f2 x v hv
          · rw [lookupMemo_cons, if_pos rfl, htotal]
          · intro x hx
            rw [lookupMemo_cons]
            by_cases hxt : x = t
            · rw [if_pos hxt]; rfl
            · rw [if_neg hxt]
              exact f3 x hx

theorem derive_fold_ok {children : String → List String}
    {exclusive : String → Int} {rank : String → Nat} {fuel : Nat}
    (hchild : ∀ p c, c ∈ children p → rank c < rank p) :
    ∀ (l : List Task) (memo : List (String × Int)),
      (∀ t ∈ l, rank t.id < fuel) →
      MemoInv children exclusive rank memo →
      MemoInv children exclusive rank (l.foldl (fun memo task =>
        (compute_inclusive children exclusive fuel task.id memo []).2) memo) ∧
      (∀ x, (lookupMemo memo x).isSome = true →
        (lookupMemo (l.foldl (fun memo task =>
          (compute_inclusive children exclusive fuel task.id memo []).2) memo) x).isSome = true) ∧
      (∀ t ∈ l, lookupMemo (l.foldl (fun memo task =>
        (compute_inclusive children exclusive fuel task.id memo []).2) memo) t.id =
          some (inclusive_pure children exclusive (rank t.id) t.id)) := by
  intro l
  induction l with
  | nil => intro memo _ hmemo; exact ⟨hmemo, fun x hx => hx, by simp⟩
  | cons task l ih =>
      intro memo hl hmemo
      obtain ⟨c1, c2, c3, c4⟩ := compute_ok_all hchild fuel task.id memo []
        hmemo (hl task (by simp)) (by simp)
      simp only [List.foldl_cons]
      obtain ⟨i1, i2, i3⟩ := ih
        (compute_inclusive children exclusive fuel task.id memo []).2
        (fun t ht => hl t (by simp [ht])) c2
      refine ⟨i1, ?_, ?_⟩
      · intro x hx
        exact i2 x (c4 x hx)
      · intro t ht
        rcases List.mem_cons.mp ht with ht | ht
        · subst ht
          have hs : (lookupMemo (compute_inclusive children exclusive fuel
              t.id memo []).2 t.id).isSome = true := by rw [c3]; rfl
          have hs2 := i2 t.id hs
          obtain ⟨v, hv⟩ := Option.isSome_iff_exists.mp hs2
          rw [hv, i1 t.id v hv]
        · exact i3 t ht

/-- C7: over an acyclic parent forest (witnessed by a rank function that
decreases from parent to child and is bounded by the task count) and any
exclusive map, the inclusive seconds derived by the aggregator satisfy,
for every task, `inclusive(t) = exclusive(t) + Σ inclusive(child)` over
the non-archived children recorded in the loaded task list. -/
theorem derive_inclusive_seconds_decomposition (tasks : List Task)
    (exclusive : String → Int) (rank : String → Nat)
    (hrank : ∀ t ∈ tasks, ∀ p ∈ t.parent_id.toList, rank t.id < rank p)
    (hbound : ∀ t ∈ tasks, rank t.id ≤ tasks.length) :
    ∀ t ∈ tasks,
      (lookupMemo (derive_inclusive_seconds tasks exclusive) t.id).getD 0 =
        exclusive t.id +
          ((children_by_parent tasks t.id).map
            (fun c => (lookupMemo (derive_inclusive_seconds tasks exclusive) c).getD 0)).sum := by
  have hchild : ∀ p c, c ∈ children_by_parent tasks p → rank c < rank p := by
    intro p c hc
    unfold children_by_parent at hc
    obtain ⟨tsk, hmem, hid⟩ := List.mem_map.mp hc
    rw [List.mem_filter] at hmem
    have hpar : tsk.parent_id = some p := of_decide_eq_true hmem.2
    have := hrank tsk hmem.1 p (by rw [hpar]; simp)
    subst hid
    omega
  have hmem_id : ∀ c ∈ tasks, lookupMemo (derive_inclusive_seconds tasks exclusive) c.id =
      some (inclusive_pure (children_by_parent tasks) exclusive (rank c.id) c.id) := by
    intro c hcm
    unfold derive_inclusive_seconds
    exact (derive_fold_ok hchild tasks []
      (fun t ht => by have := hbound t ht; omega)
      (fun x v hv => by cases hv)).2.2 c hcm
  intro t ht
  rw [hmem_id t ht]
  have hmap : (children_by_parent tasks t.id).map
      (fun c => (lookupMemo (derive_inclusive_seconds tasks exclusive) c).getD 0) =
      (children_by_parent tasks t.id).map
      (fun c => inclusive_pure (children_by_parent tasks) exclusive (rank c) c) := by
    apply List.map_congr_left
    intro c hc
    unfold children_by_parent at hc
    obtain ⟨tsk, hmem, hid⟩ := List.mem_map.mp hc
    rw [List.mem_filter] at hmem
    subst hid
    rw [hmem_id tsk hmem.1]
    rfl
  rw [hmap, Option.getD_some, inclusive_pure_unfold hchild t.id]

/-- A two-task parent/child forest used as the C7 witness input. -/
def sampleForest : List Task :=
  [⟨"p", none, "P", "idle", 0, none⟩, ⟨"c", some "p", "C", "idle", 1, none⟩]

/-- A concrete exclusive-seconds map for the C7 witness. -/
def sampleExclusive : String → Int :=
  fun x => if x = "p" then 10 else if x = "c" then 5 else 0

/-- A rank witnessing the acyclicity of `sampleForest`. -/
def sampleRank : String → Nat :=
  fun x => if x = "p" then 1 else 0

/-- Witness for C7 at the sample forest. -/
theorem derive_inclusive_seconds_decomposition_witness :
    (lookupMemo (derive_inclusive_seconds sampleForest sampleExclusive) "p").getD 0 =
      sampleExclusive "p" +
        ((children_by_parent sampleForest "p").map
          (fun c => (lookupMemo
            (derive_inclusive_seconds sampleForest sampleExclusive) c).getD 0)).sum :=
  derive_inclusive_seconds_decomposition sampleForest sampleExclusive sampleRank
    (by decide) (by decide) ⟨"p", none, "P", "idle", 0, none⟩ (by decide)

/-! ## Claims C1 and C9: counting and structure lemmas -/

theorem two_le_length_of_mem_ne {α : Type} {a b : α} :
    ∀ {l : List α}, a ∈ l → b ∈ l → a ≠ b → 2 ≤ l.length := by
  intro l
  induction l with
  | nil => intro ha; cases ha
  | cons c cs ih =>
      intro ha hb hne
      rcases List.mem_cons.mp ha with ha | ha <;>
        rcases List.mem_cons.mp hb with hb | hb
      · exact absurd (ha.trans hb.symm) hne
      · have := List.length_pos_of_mem hb
        simp only [List.length_cons]
        omega
      · have := List.length_pos_of_mem ha
        simp only [List.length_cons]
        omega
      · have := ih ha hb hne
        simp only [List.length_cons]
        omega

theorem countP_map_le {α : Type} (l : List α) (f : α → α) (p : α → Bool)
    (h : ∀ t, p (f t) = true → f t = t) :
    (l.map f).countP p ≤ l.countP p := by
  rw [List.countP_map]
  apply List.countP_mono_left
  intro a _ hpa
  rw [← h a hpa]
  exact hpa

theorem countP_map_eq {α : Type} (l : List α) (f : α → α) (p : α → Bool)
    (h : ∀ t, p (f t) = p t) :
    (l.map f).countP p = l.countP p := by
  rw [List.countP_map]
  exact List.countP_congr (fun a _ => by simp [Function.comp, h a])

theorem countP_id_le_one (tasks : List Task) (task_id : String)
    (hnd : (tasks.map (·.id)).Nodup) :
    tasks.countP (fun t => decide (t.id = task_id)) ≤ 1 := by
  induction tasks with
  | nil => simp
  | cons a l ih =>
      rw [List.map_cons, List.nodup_cons] at hnd
      rw [List.countP_cons]
      by_cases ha : a.id = task_id
      · have h0 : l.countP (fun t => decide (t.id = task_id)) = 0 := by
          rw [List.countP_eq_zero]
          intro t htl hdec
          have hts : t.id = task_id := of_decide_eq_true hdec
          have hmem : t.id ∈ l.map (·.id) := List.mem_map_of_mem (·.id) htl
          rw [hts, ← ha] at hmem
          exact hnd.1 hmem
        simp [ha, h0]
      · have := ih hnd.2
        simp [ha]
        omega

/-- The length of the running filter, as the C1 invariant counts it. -/
def runningCount (tasks : List Task) : Nat :=
  (tasks.filter (fun t => decide (t.status = "running" ∧ t.archived_at = none))).length

theorem AtMostOneRunning_iff (s : Db) : AtMostOneRunning s ↔ runningCount s.tasks ≤ 1 :=
  Iff.rfl

theorem runningCount_eq_countP (tasks : List Task) :
    runningCount tasks =
      tasks.countP (fun t => decide (t.status = "running" ∧ t.archived_at = none)) := by
  unfold runningCount
  rw [List.countP_eq_length_filter]

theorem runningCount_map_le (tasks : List Task) (f : Task → Task)
    (h : ∀ t, decide ((f t).status = "running" ∧ (f t).archived_at = none) = true → f t = t) :
    runningCount (tasks.map f) ≤ runningCount tasks := by
  rw [runningCount_eq_countP, runningCount_eq_countP]
  exact countP_map_le tasks f _ h

theorem runningCount_map_eq (tasks : List Task) (f : Task → Task)
    (h : ∀ t, ((f t).status = t.status ∧ (f t).archived_at = t.archived_at)) :
    runningCount (tasks.map f) = runningCount tasks := by
  rw [runningCount_eq_countP, runningCount_eq_countP]
  refine countP_map_eq tasks f _ (fun t => ?_)
  rw [(h t).1, (h t).2]

theorem runningCount_append (l₁ l₂ : List Task) :
    runningCount (l₁ ++ l₂) = runningCount l₁ + runningCount l₂ := by
  unfold runningCount
  rw [List.filter_append, List.length_append]

theorem runningCount_filter_le (tasks : List Task) (q : Task → Bool) :
    runningCount (tasks.filter q) ≤ runningCount tasks := by
  unfold runningCount
  exact List.Sublist.length_le (List.Sublist.filter _ (List.filter_sublist tasks))

/-- Setting one task's status to running keeps the running count at one,
provided no other task row is running (with unique ids). -/
theorem runningCount_set_running_le_one (tasks : List Task) (task_id : String)
    (hnd : (tasks.map (·.id)).Nodup)
    (hother : ∀ t ∈ tasks, t.status = "running" → t.archived_at = none → t.id = task_id) :
    runningCount (tasks.map (fun t =>
      if t.id = task_id then { t with status := "running" } else t)) ≤ 1 := by
  rw [runningCount_eq_countP, List.countP_map]
  refine le_trans (List.countP_mono_left (q := fun t => decide (t.id = task_id)) ?_)
    (countP_id_le_one tasks task_id hnd)
  intro a ha hpa
  by_cases hid : a.id = task_id
  · exact decide_eq_true hid
  · simp only [Function.comp] at hpa
    have hp := of_decide_eq_true hpa
    rw [if_neg hid] at hp
    exact absurd (hother a ha hp.1 hp.2) hid

theorem append_event_tasks (s : Db) (a b : String) (c : Int) (d : Option Payload) :
    (append_event s a b c d).tasks = s.tasks := rfl

theorem append_event_suggestions (s : Db) (a b : String) (c : Int) (d : Option Payload) :
    (append_event s a b c d).suggestions = s.suggestions := rfl

theorem update_task_status_tasks (s : Db) (task_id status : String) :
    (update_task_status s task_id status).tasks =
      s.tasks.map (fun t => if t.id = task_id then { t with status } else t) := rfl

theorem update_task_status_suggestions (s : Db) (task_id status : String) :
    (update_task_status s task_id status).suggestions = s.suggestions := rfl

theorem insert_rest_suggestion_tasks (s : Db) (tt : String) (tid : Option String)
    (fs sc : Int) (dr : ℚ) (sm : Int) (rs : List String) (ts : Int) :
    (insert_rest_suggestion s tt tid fs sc dr sm rs ts).tasks = s.tasks := rfl

theorem create_rest_suggestion_tasks (s : Db) (tt : String) (tid : Option String)
    (ts : Int) : (create_rest_suggestion s tt tid ts).tasks = s.tasks := rfl

theorem maybe_create_task_switch_suggestion_tasks (s : Db) (prev : Option String)
    (cur : String) (ts : Int) :
    (maybe_create_task_switch_suggestion s prev cur ts).tasks = s.tasks := by
  unfold maybe_create_task_switch_suggestion
  cases prev with
  | none => rfl
  | some p =>
      dsimp only
      split <;> rfl

/-- Ids are untouched by a status update. -/
theorem map_id_update (tasks : List Task) (task_id status : String) :
    ((tasks.map (fun t => if t.id = task_id then { t with status } else t)).map (·.id)) =
      tasks.map (·.id) := by
  rw [List.map_map]
  refine List.map_congr_left (fun t _ => ?_)
  simp only [Function.comp]
  split <;> rfl

/-- A row found by `find?` is in the list and satisfies the predicate. -/
theorem find?_spec {α : Type} {p : α → Bool} {l : List α} {a : α}
    (h : l.find? p = some a) : a ∈ l ∧ p a = true :=
  ⟨List.mem_of_find?_eq_some h, List.find?_some h⟩

theorem runningCount_singleton_not_running (t : Task) (h : t.status ≠ "running") :
    runningCount [t] = 0 := by
  have hd : (decide (t.status = "running" ∧ t.archived_at = none)) = false :=
    decide_eq_false (fun hp => h hp.1)
  unfold runningCount
  simp [List.filter, hd]

theorem runningCount_singleton_running (t : Task) (h1 : t.status = "running")
    (h2 : t.archived_at = none) : runningCount [t] = 1 := by
  have hd : (decide (t.status = "running" ∧ t.archived_at = none)) = true :=
    decide_eq_true ⟨h1, h2⟩
  unfold runningCount
  simp [List.filter, hd]

theorem create_task_running_inv {s : Db} {title : String} {parent_id : Option String}
    {nid : String} {now : Int} {r : String} {s' : Db}
    (hinv : AtMostOneRunning s)
    (h : create_task s title parent_id nid now = .ok (r, s')) :
    AtMostOneRunning s' := by
  unfold create_task at h
  cases hs : sanitize_title title with
  | error e => rw [hs] at h; exact absurd h (by simp)
  | ok clean =>
      rw [hs] at h
      dsimp only at h
      have hgoal : ∀ s'' : Db, s'' = { s with tasks := s.tasks ++
          [(⟨nid, parent_id, clean, "idle", now, none⟩ : Task)] } →
          AtMostOneRunning s'' := by
        intro s'' hs''
        subst hs''
        rw [AtMostOneRunning_iff]
        dsimp only
        rw [runningCount_append, runningCount_singleton_not_running _ (by simp)]
        rw [AtMostOneRunning_iff] at hinv
        omega
      cases parent_id with
      | some parent =>
          dsimp only at h
          cases he : ensure_task_exists s parent with
          | error e => rw [he] at h; exact absurd h (by simp)
          | ok u =>
              rw [he] at h
              dsimp only at h
              by_cases hdup : s.tasks.any (fun t => t.id = nid)
              · rw [if_pos hdup] at h; exact absurd h (by simp)
              · rw [if_neg hdup] at h
                cases h
                exact hgoal _ rfl
      | none =>
          dsimp only at h
          by_cases hdup : s.tasks.any (fun t => t.id = nid)
          · rw [if_pos hdup] at h; exact absurd h (by simp)
          · rw [if_neg hdup] at h
            cases h
            exact hgoal _ rfl

theorem rename_task_running_inv {s : Db} {task_id title : String} {s' : Db}
    (hinv : AtMostOneRunning s)
    (h : rename_task s task_id title = .ok s') : AtMostOneRunning s' := by
  unfold rename_task at h
  cases he : ensure_task_exists s task_id with
  | error e => rw [he] at h; exact absurd h (by simp)
  | ok u =>
      rw [he] at h
      dsimp only at h
      cases hs : sanitize_title title with
      | error e => rw [hs] at h; exact absurd h (by simp)
      | ok clean =>
          rw [hs] at h
          dsimp only at h
          cases h
          rw [AtMostOneRunning_iff]
          dsimp only
          rw [runningCount_map_eq _ _ (fun t => by split <;> exact ⟨rfl, rfl⟩)]
          exact hinv

theorem hard_delete_task_ids_tasks (s : Db) (ids : List String) :
    (hard_delete_task_ids s ids).tasks =
      s.tasks.filter (fun t => ¬ ids.contains t.id) := rfl

theorem archive_task_ids_tasks (s : Db) (ids : List String) (ts : Int) :
    (archive_task_ids s ids ts).tasks = s.tasks.map (fun t =>
      if ids.contains t.id ∧ t.archived_at = none then
        { t with archived_at := some ts } else t) := rfl

theorem delete_tasks_running_inv {s : Db} {task_ids : List String}
    {hard_delete : Bool} {now : Int} {s' : Db}
    (hinv : AtMostOneRunning s)
    (h : delete_tasks s task_ids hard_delete now = .ok s') : AtMostOneRunning s' := by
  unfold delete_tasks at h
  by_cases hempty : task_ids.isEmpty
  · rw [if_pos hempty] at h; exact absurd h (by simp)
  · rw [if_neg hempty] at h
    cases hex : expand_unique_subtree_ids s task_ids with
    | error e => rw [hex] at h; exact absurd h (by simp)
    | ok expanded =>
        rw [hex] at h
        dsimp only at h
        by_cases hee : expanded.isEmpty
        · rw [if_pos hee] at h
          cases h
          exact hinv
        · rw [if_neg hee] at h
          cases hact : find_active_in_subtree s expanded with
          | some pr => rw [hact] at h; exact absurd h (by simp)
          | none =>
              rw [hact] at h
              dsimp only at h
              cases hard_delete with
              | true =>
                  rw [if_pos rfl] at h
                  cases h
                  rw [AtMostOneRunning_iff, hard_delete_task_ids_tasks]
                  exact le_trans (runningCount_filter_le _ _) hinv
              | false =>
                  rw [if_neg (by simp)] at h
                  cases h
                  rw [AtMostOneRunning_iff, archive_task_ids_tasks]
                  refine le_trans (runningCount_map_le _ _ ?_) hinv
                  intro t hpa
                  have hp := of_decide_eq_true hpa
                  by_cases hc : expanded.contains t.id = true ∧ t.archived_at = none
                  · rw [if_pos hc] at hp
                    exact absurd hp.2 (by simp)
                  · exact if_neg hc

theorem pause_task_running_inv {s : Db} {task_id : String} {now : Int} {s' : Db}
    (hinv : AtMostOneRunning s)
    (h : pause_task s task_id now = .ok s') : AtMostOneRunning s' := by
  unfold pause_task get_task_state at h
  cases hf : s.tasks.find? (fun t => decide (t.id = task_id ∧ t.archived_at = none)) with
  | none => rw [hf] at h; exact absurd h (by simp)
  | some tq =>
      rw [hf] at h
      dsimp only at h
      by_cases h1 : tq.status = "paused"
      · rw [if_pos h1] at h
        cases h
        exact hinv
      · rw [if_neg h1] at h
        by_cases h2 : tq.status ≠ "running"
        · rw [if_pos h2] at h; exact absurd h (by simp)
        · rw [if_neg h2] at h
          cases h
          rw [AtMostOneRunning_iff, append_event_tasks, update_task_status_tasks]
          refine le_trans (runningCount_map_le _ _ ?_) hinv
          intro t hpa
          have hp := of_decide_eq_true hpa
          by_cases hid : t.id = task_id
          · rw [if_pos hid] at hp
            exact absurd hp.1 (by simp)
          · exact if_neg hid

theorem respond_rest_suggestion_tasks_eq {s : Db} {sid : Int} {accept : Bool}
    {now : Int} {s' : Db}
    (h : respond_rest_suggestion s sid accept now = .ok s') : s'.tasks = s.tasks := by
  unfold respond_rest_suggestion at h
  repeat' (first | split at h | dsimp only at h)
  all_goals (cases h <;> rfl)

theorem add_tag_to_task_tasks_eq {s : Db} {task_id tag_name new_tag_id : String}
    {now : Int} {s' : Db}
    (h : add_tag_to_task s task_id tag_name new_tag_id now = .ok s') :
    s'.tasks = s.tasks := by
  unfold add_tag_to_task at h
  repeat' (first | split at h | dsimp only at h)
  all_goals (cases h <;> rfl)

theorem remove_tag_from_task_tasks_eq {s : Db} {task_id tag_name : String}
    {now : Int} {s' : Db}
    (h : remove_tag_from_task s task_id tag_name now = .ok s') :
    s'.tasks = s.tasks := by
  unfold remove_tag_from_task at h
  repeat' (first | split at h | dsimp only at h)
  all_goals (cases h <;> rfl)

theorem reparent_task_running_inv {s : Db} {task_id : String}
    {new_parent_id : Option String} {now : Int} {s' : Db}
    (hinv : AtMostOneRunning s)
    (h : reparent_task s task_id new_parent_id now = .ok s') : AtMostOneRunning s' := by
  unfold reparent_task at h
  repeat' (first | split at h | dsimp only at h)
  all_goals cases h
  all_goals first
    | exact hinv
    | (rw [AtMostOneRunning_iff, append_event_tasks]
       dsimp only
       rw [runningCount_map_eq _ _ (fun t => by split <;> exact ⟨rfl, rfl⟩)]
       exact hinv)

theorem start_task_running_inv {s : Db} {task_id : String} {now : Int} {s' : Db}
    (hnd : TaskIdsNodup s) (hinv : AtMostOneRunning s)
    (h : start_task s task_id now = .ok s') : AtMostOneRunning s' := by
  unfold start_task get_task_state at h
  cases hf : s.tasks.find? (fun t => decide (t.id = task_id ∧ t.archived_at = none)) with
  | none => rw [hf] at h; exact absurd h (by simp)
  | some tq =>
      rw [hf] at h
      dsimp only at h
      by_cases h1 : tq.status = "running"
      · rw [if_pos h1] at h; cases h; exact hinv
      · rw [if_neg h1] at h
        by_cases h2 : tq.status = "paused"
        · rw [if_pos h2] at h; exact absurd h (by simp)
        · rw [if_neg h2] at h
          cases hrun : find_running_task s with
          | some active =>
              rw [hrun] at h
              dsimp only at h
              by_cases h3 : active ≠ task_id
              · rw [if_pos h3] at h; exact absurd h (by simp)
              · exfalso
                have hrun' := hrun
                unfold find_running_task at hrun'
                obtain ⟨r, hrf, hrid⟩ := Option.map_eq_some'.mp hrun'
                have hr := find?_spec hrf
                have hq := find?_spec hf
                have hrprop := of_decide_eq_true hr.2
                have hqprop := of_decide_eq_true hq.2
                have hreq : r = tq := List.inj_on_of_nodup_map hnd hr.1 hq.1
                  (by rw [hrid, of_not_not h3, hqprop.1])
                exact h1 (hreq ▸ hrprop.1)
          | none =>
              rw [hrun] at h
              dsimp only at h
              cases h
              rw [AtMostOneRunning_iff, maybe_create_task_switch_suggestion_tasks,
                append_event_tasks, update_task_status_tasks]
              refine runningCount_set_running_le_one s.tasks task_id hnd ?_
              intro t ht hrunning harch
              have hrun' := hrun
              unfold find_running_task at hrun'
              exact absurd (decide_eq_true ⟨hrunning, harch⟩)
                (List.find?_eq_none.mp (Option.map_eq_none'.mp hrun') t ht)

theorem resume_task_running_inv {s : Db} {task_id : String} {now : Int} {s' : Db}
    (hnd : TaskIdsNodup s) (hinv : AtMostOneRunning s)
    (h : resume_task s task_id now = .ok s') : AtMostOneRunning s' := by
  unfold resume_task get_task_state at h
  cases hf : s.tasks.find? (fun t => decide (t.id = task_id ∧ t.archived_at = none)) with
  | none => rw [hf] at h; exact absurd h (by simp)
  | some tq =>
      rw [hf] at h
      dsimp only at h
      by_cases h1 : tq.status = "running"
      · rw [if_pos h1] at h; cases h; exact hinv
      · rw [if_neg h1] at h
        by_cases h2 : tq.status ≠ "paused"
        · rw [if_pos h2] at h; exact absurd h (by simp)
        · rw [if_neg h2] at h
          cases hrun : find_running_task s with
          | some active =>
              rw [hrun] at h
              dsimp only at h
              by_cases h3 : active ≠ task_id
              · rw [if_pos h3] at h; exact absurd h (by simp)
              · exfalso
                have hrun' := hrun
                unfold find_running_task at hrun'
                obtain ⟨r, hrf, hrid⟩ := Option.map_eq_some'.mp hrun'
                have hr := find?_spec hrf
                have hq := find?_spec hf
                have hrprop := of_decide_eq_true hr.2
                have hqprop := of_decide_eq_true hq.2
                have hreq : r = tq := List.inj_on_of_nodup_map hnd hr.1 hq.1
                  (by rw [hrid, of_not_not h3, hqprop.1])
                exact h1 (hreq ▸ hrprop.1)
          | none =>
              rw [hrun] at h
              dsimp only at h
              cases h
              rw [AtMostOneRunning_iff, maybe_create_task_switch_suggestion_tasks,
                append_event_tasks, update_task_status_tasks]
              refine runningCount_set_running_le_one s.tasks task_id hnd ?_
              intro t ht hrunning harch
              have hrun' := hrun
              unfold find_running_task at hrun'
              exact absurd (decide_eq_true ⟨hrunning, harch⟩)
                (List.find?_eq_none.mp (Option.map_eq_none'.mp hrun') t ht)

theorem runningCount_set_stopped_le (tasks : List Task) (task_id status : String)
    (hstatus : status ≠ "running") :
    runningCount (tasks.map (fun t =>
      if t.id = task_id then { t with status := status } else t)) ≤
      runningCount tasks := by
  refine runningCount_map_le _ _ (fun t hpa => ?_)
  have hp := of_decide_eq_true hpa
  by_cases hid : t.id = task_id
  · rw [if_pos hid] at hp
    exact absurd hp.1 hstatus
  · exact if_neg hid

theorem stop_task_running_inv {s : Db} {task_id : String} {now : Int} {s' : Db}
    (hnd : TaskIdsNodup s) (hinv : AtMostOneRunning s)
    (h : stop_task s task_id now = .ok s') : AtMostOneRunning s' := by
  unfold stop_task get_task_state at h
  cases hf : s.tasks.find? (fun t => decide (t.id = task_id ∧ t.archived_at = none)) with
  | none => rw [hf] at h; exact absurd h (by simp)
  | some tq =>
      rw [hf] at h
      dsimp only at h
      by_cases h1 : tq.status = "stopped"
      · rw [if_pos h1] at h; cases h; exact hinv
      · rw [if_neg h1] at h
        by_cases h2 : tq.status = "idle"
        · rw [if_pos h2] at h; exact absurd h (by simp)
        · rw [if_neg h2] at h
          unfold stop_task_tx at h
          dsimp only at h
          have hs₁le : runningCount (append_event
              (update_task_status s task_id "stopped") task_id "stop" now none).tasks ≤ 1 := by
            rw [append_event_tasks, update_task_status_tasks]
            exact le_trans (runningCount_set_stopped_le s.tasks task_id "stopped"
              (by simp)) hinv
          cases hpar : tq.parent_id with
          | none =>
              rw [hpar] at h
              dsimp only at h
              cases h
              exact hs₁le
          | some parent =>
              rw [hpar] at h
              dsimp only at h
              rw [maybe_auto_resume_parent_eq] at h
              by_cases hcond : auto_resume_conditions
                  (append_event (update_task_status s task_id "stopped")
                    task_id "stop" now none) parent task_id
              · rw [if_pos hcond] at h
                dsimp only at h
                cases h
                rw [AtMostOneRunning_iff, create_rest_suggestion_tasks,
                  append_event_tasks, update_task_status_tasks]
                rw [append_event_tasks, update_task_status_tasks]
                refine runningCount_set_running_le_one _ parent ?_ ?_
                · rw [map_id_update]
                  exact hnd
                · intro t ht hrunning harch
                  have h3 := hcond.2.2
                  unfold find_running_task at h3
                  have h3' := Option.map_eq_none'.mp h3
                  rw [append_event_tasks, update_task_status_tasks] at h3'
                  exact absurd (decide_eq_true ⟨hrunning, harch⟩)
                    (List.find?_eq_none.mp h3' t ht)
              · rw [if_neg hcond] at h
                dsimp only at h
                cases h
                exact hs₁le

theorem insert_subtask_running_inv {s : Db} {parent_task_id title child_task_id : String}
    {now : Int} {r : String} {s' : Db}
    (hinv : AtMostOneRunning s)
    (h : insert_subtask_and_start s parent_task_id title child_task_id now = .ok (r, s')) :
    AtMostOneRunning s' := by
  unfold insert_subtask_and_start get_task_state at h
  cases hs : sanitize_title title with
  | error e => rw [hs] at h; exact absurd h (by simp)
  | ok clean =>
      rw [hs] at h
      dsimp only at h
      cases hf : s.tasks.find? (fun t =>
          decide (t.id = parent_task_id ∧ t.archived_at = none)) with
      | none => rw [hf] at h; exact absurd h (by simp)
      | some tq =>
          rw [hf] at h
          dsimp only at h
          by_cases h1 : tq.status ≠ "running"
          · rw [if_pos h1] at h; exact absurd h (by simp)
          · rw [if_neg h1] at h
            cases hrun : find_running_task s with
            | none => rw [hrun] at h; exact absurd h (by simp)
            | some active =>
                rw [hrun] at h
                dsimp only at h
                by_cases h3 : active ≠ parent_task_id
                · rw [if_pos h3] at h; exact absurd h (by simp)
                · rw [if_neg h3] at h
                  by_cases h4 : s.tasks.any (fun t => t.id = child_task_id)
                  · rw [if_pos h4] at h; exact absurd h (by simp)
                  · rw [if_neg h4] at h
                    cases h
                    rw [AtMostOneRunning_iff, create_rest_suggestion_tasks,
                      append_event_tasks]
                    dsimp only
                    rw [append_event_tasks, update_task_status_tasks]
                    rw [runningCount_append, runningCount_singleton_running _ rfl rfl]
                    have hzero : runningCount (s.tasks.map (fun t =>
                        if t.id = parent_task_id then { t with status := "paused" }
                        else t)) = 0 := by
                      rw [runningCount_eq_countP, List.countP_map, List.countP_eq_zero]
                      intro t ht hpa
                      simp only [Function.comp] at hpa
                      have hp := of_decide_eq_true hpa
                      by_cases hid : t.id = parent_task_id
                      · rw [if_pos hid] at hp
                        exact absurd hp.1 (by simp)
                      · rw [if_neg hid] at hp
                        have hqprop := of_decide_eq_true (find?_spec hf).2
                        have htmem : t ∈ s.tasks.filter (fun t =>
                            decide (t.status = "running" ∧ t.archived_at = none)) :=
                          List.mem_filter.mpr ⟨ht, decide_eq_true hp⟩
                        have hqmem : tq ∈ s.tasks.filter (fun t =>
                            decide (t.status = "running" ∧ t.archived_at = none)) :=
                          List.mem_filter.mpr ⟨(find?_spec hf).1,
                            decide_eq_true ⟨not_not.mp h1, hqprop.2⟩⟩
                        have hne : t ≠ tq := fun he => hid (he ▸ hqprop.1 ▸ rfl)
                        have := two_le_length_of_mem_ne htmem hqmem hne
                        have hle := hinv
                        rw [AtMostOneRunning_iff] at hle
                        unfold runningCount at hle
                        omega
                    omega

/-- C1: every committed Task Service operation preserves the invariant
that at most one non-archived task has status running (given the
primary-key uniqueness of task ids). -/
theorem step_preserves_at_most_one_running (op : Op) (s s' : Db)
    (hnd : TaskIdsNodup s) (hinv : AtMostOneRunning s)
    (h : step op s = .ok s') : AtMostOneRunning s' := by
  cases op with
  | createTask title parent_id nid now =>
      dsimp only [step] at h
      cases hc : create_task s title parent_id nid now with
      | error e =>
          rw [hc] at h
          dsimp only [Except.map] at h
          cases h
      | ok pr =>
          rw [hc] at h
          dsimp only [Except.map] at h
          cases h
          exact create_task_running_inv hinv hc
  | renameTask task_id title =>
      dsimp only [step] at h
      exact rename_task_running_inv hinv h
  | deleteTasks task_ids hard_delete now =>
      dsimp only [step] at h
      exact delete_tasks_running_inv hinv h
  | reparentTask task_id new_parent_id now =>
      dsimp only [step] at h
      exact reparent_task_running_inv hinv h
  | startTask task_id now =>
      dsimp only [step] at h
      exact start_task_running_inv hnd hinv h
  | pauseTask task_id now =>
      dsimp only [step] at h
      exact pause_task_running_inv hinv h
  | resumeTask task_id now =>
      dsimp only [step] at h
      exact resume_task_running_inv hnd hinv h
  | stopTask task_id now =>
      dsimp only [step] at h
      exact stop_task_running_inv hnd hinv h
  | insertSubtaskAndStart parent_task_id title child_task_id now =>
      dsimp only [step] at h
      cases hc : insert_subtask_and_start s parent_task_id title child_task_id now with
      | error e =>
          rw [hc] at h
          dsimp only [Except.map] at h
          cases h
      | ok pr =>
          rw [hc] at h
          dsimp only [Except.map] at h
          cases h
          exact insert_subtask_running_inv hinv hc
  | addTag task_id tag_name new_tag_id now =>
      dsimp only [step] at h
      rw [AtMostOneRunning_iff, add_tag_to_task_tasks_eq h]
      exact hinv
  | removeTag task_id tag_name now =>
      dsimp only [step] at h
      rw [AtMostOneRunning_iff, remove_tag_from_task_tasks_eq h]
      exact hinv
  | respondRestSuggestion suggestion_id accept now =>
      dsimp only [step] at h
      rw [AtMostOneRunning_iff, respond_rest_suggestion_tasks_eq h]
      exact hinv

/-- Witness for C1: starting the sole idle task of the sample store
keeps the running count at one. -/
theorem step_preserves_at_most_one_running_witness :
    AtMostOneRunning { sampleIdle with
      tasks := [⟨"a", none, "A", "running", 0, none⟩],
      events := [⟨1, "a", "start", 7, none⟩], next_event_id := 2 } :=
  step_preserves_at_most_one_running (.startTask "a" 7) sampleIdle _
    (by unfold TaskIdsNodup; decide) (by unfold AtMostOneRunning; decide) (by decide)

/-- The number of pending rest-suggestion rows. -/
def pendingCount (l : List Suggestion) : Nat :=
  (l.filter (fun r => decide (r.status = "pending"))).length

theorem AtMostOnePending_iff (s : Db) :
    AtMostOnePending s ↔ pendingCount s.suggestions ≤ 1 := Iff.rfl

theorem insert_rest_suggestion_pending_one (s : Db) (tt : String)
    (tid : Option String) (fs sc : Int) (dr : ℚ) (sm : Int) (rs : List String)
    (ts : Int) :
    pendingCount (insert_rest_suggestion s tt tid fs sc dr sm rs ts).suggestions = 1 := by
  unfold insert_rest_suggestion pendingCount
  dsimp only
  rw [List.filter_append]
  have hdem : (s.suggestions.map (fun r =>
      if r.status = "pending" then { r with status := "ignored", responded_at := some ts }
      else r)).filter (fun r => decide (r.status = "pending")) = [] := by
    rw [List.filter_eq_nil_iff]
    intro r' hr'
    obtain ⟨r, hr, hfr⟩ := List.mem_map.mp hr'
    subst hfr
    by_cases hpd : r.status = "pending"
    · rw [if_pos hpd]; simp
    · rw [if_neg hpd]; simp [hpd]
  rw [hdem]
  simp

theorem create_rest_suggestion_pending_one (s : Db) (tt : String)
    (tid : Option String) (ts : Int) :
    pendingCount (create_rest_suggestion s tt tid ts).suggestions = 1 := by
  unfold create_rest_suggestion
  dsimp only
  exact insert_rest_suggestion_pending_one s tt tid _ _ _ _ _ ts

theorem maybe_create_pending_inv (s : Db) (prev : Option String) (cur : String)
    (ts : Int) (hp : AtMostOnePending s) :
    AtMostOnePending (maybe_create_task_switch_suggestion s prev cur ts) := by
  unfold maybe_create_task_switch_suggestion
  cases prev with
  | none => exact hp
  | some p =>
      dsimp only
      split
      · exact hp
      · rw [AtMostOnePending_iff, create_rest_suggestion_pending_one]

theorem pendingCount_filter_le (l : List Suggestion) (q : Suggestion → Bool) :
    pendingCount (l.filter q) ≤ pendingCount l := by
  unfold pendingCount
  exact List.Sublist.length_le (List.Sublist.filter _ (List.filter_sublist l))

theorem create_task_suggestions_eq {s : Db} {title : String}
    {parent_id : Option String} {nid : String} {now : Int} {r : String} {s' : Db}
    (h : create_task s title parent_id nid now = .ok (r, s')) :
    s'.suggestions = s.suggestions := by
  unfold create_task at h
  repeat' (first | split at h | dsimp only at h)
  all_goals (cases h <;> rfl)

theorem rename_task_suggestions_eq {s : Db} {task_id title : String} {s' : Db}
    (h : rename_task s task_id title = .ok s') : s'.suggestions = s.suggestions := by
  unfold rename_task at h
  repeat' (first | split at h | dsimp only at h)
  all_goals (cases h <;> rfl)

theorem reparent_task_suggestions_eq {s : Db} {task_id : String}
    {new_parent_id : Option String} {now : Int} {s' : Db}
    (h : reparent_task s task_id new_parent_id now = .ok s') :
    s'.suggestions = s.suggestions := by
  unfold reparent_task at h
  repeat' (first | split at h | dsimp only at h)
  all_goals (cases h <;> rfl)

theorem pause_task_suggestions_eq {s : Db} {task_id : String} {now : Int} {s' : Db}
    (h : pause_task s task_id now = .ok s') : s'.suggestions = s.suggestions := by
  unfold pause_task at h
  repeat' (first | split at h | dsimp only at h)
  all_goals (cases h <;> rfl)

theorem add_tag_to_task_suggestions_eq {s : Db} {task_id tag_name new_tag_id : String}
    {now : Int} {s' : Db}
    (h : add_tag_to_task s task_id tag_name new_tag_id now = .ok s') :
    s'.suggestions = s.suggestions := by
  unfold add_tag_to_task at h
  repeat' (first | split at h | dsimp only at h)
  all_goals (cases h <;> rfl)

theorem remove_tag_from_task_suggestions_eq {s : Db} {task_id tag_name : String}
    {now : Int} {s' : Db}
    (h : remove_tag_from_task s task_id tag_name now = .ok s') :
    s'.suggestions = s.suggestions := by
  unfold remove_tag_from_task at h
  repeat' (first | split at h | dsimp only at h)
  all_goals (cases h <;> rfl)

theorem delete_tasks_pending_inv {s : Db} {task_ids : List String}
    {hard_delete : Bool} {now : Int} {s' : Db}
    (hp : AtMostOnePending s)
    (h : delete_tasks s task_ids hard_delete now = .ok s') : AtMostOnePending s' := by
  unfold delete_tasks at h
  repeat' (first | split at h | dsimp only at h)
  all_goals cases h
  · exact hp
  · rw [AtMostOnePending_iff]
    unfold hard_delete_task_ids
    dsimp only
    exact le_trans (pendingCount_filter_le _ _) hp
  · exact hp

theorem respond_rest_suggestion_pending_inv {s : Db} {sid : Int} {accept : Bool}
    {now : Int} {s' : Db}
    (hp : AtMostOnePending s)
    (h : respond_rest_suggestion s sid accept now = .ok s') : AtMostOnePending s' := by
  unfold respond_rest_suggestion at h
  repeat' (first | split at h | dsimp only at h)
  all_goals cases h
  all_goals first
    | exact hp
    | (rw [AtMostOnePending_iff]
       dsimp only
       have hple : pendingCount s.suggestions ≤ 1 := hp
       rw [pendingCount, ← List.countP_eq_length_filter] at hple ⊢
       rw [List.countP_map]
       refine le_trans (List.countP_mono_left ?_) hple
       intro r hr hpr
       simp only [Function.comp] at hpr
       have hrp := of_decide_eq_true hpr
       by_cases hc : r.id = sid ∧ r.status = "pending"
       · rw [if_pos hc] at hrp
         exact absurd hrp (by simp)
       · rw [if_neg hc] at hrp
         exact decide_eq_true hrp)

theorem start_task_pending_inv {s : Db} {task_id : String} {now : Int} {s' : Db}
    (hp : AtMostOnePending s)
    (h : start_task s task_id now = .ok s') : AtMostOnePending s' := by
  unfold start_task at h
  repeat' (first | split at h | dsimp only at h)
  all_goals cases h
  all_goals first
    | exact hp
    | exact maybe_create_pending_inv _ _ _ _ hp

theorem resume_task_pending_inv {s : Db} {task_id : String} {now : Int} {s' : Db}
    (hp : AtMostOnePending s)
    (h : resume_task s task_id now = .ok s') : AtMostOnePending s' := by
  unfold resume_task at h
  repeat' (first | split at h | dsimp only at h)
  all_goals cases h
  all_goals first
    | exact hp
    | exact maybe_create_pending_inv _ _ _ _ hp

theorem stop_task_pending_inv {s : Db} {task_id : String} {now : Int} {s' : Db}
    (hp : AtMostOnePending s)
    (h : stop_task s task_id now = .ok s') : AtMostOnePending s' := by
  unfold stop_task stop_task_tx at h
  simp only [maybe_auto_resume_parent_eq] at h
  repeat' (first | split at h | dsimp only at h)
  all_goals cases h
  all_goals first
    | exact hp
    | (rw [AtMostOnePending_iff, create_rest_suggestion_pending_one])

theorem insert_subtask_pending_inv {s : Db} {parent_task_id title child_task_id : String}
    {now : Int} {r : String} {s' : Db}
    (h : insert_subtask_and_start s parent_task_id title child_task_id now = .ok (r, s')) :
    AtMostOnePending s' := by
  unfold insert_subtask_and_start at h
  repeat' (first | split at h | dsimp only at h)
  all_goals cases h
  all_goals rw [AtMostOnePending_iff, create_rest_suggestion_pending_one]

/-- The step dispatcher preserves the single-pending invariant. -/
theorem step_preserves_at_most_one_pending (op : Op) (s s' : Db)
    (hp : AtMostOnePending s) (h : step op s = .ok s') : AtMostOnePending s' := by
  cases op with
  | createTask title parent_id nid now =>
      dsimp only [step] at h
      cases hc : create_task s title parent_id nid now with
      | error e => rw [hc] at h; dsimp only [Except.map] at h; cases h
      | ok pr =>
          rw [hc] at h
          dsimp only [Except.map] at h
          cases h
          rw [AtMostOnePending_iff, create_task_suggestions_eq hc]
          exact hp
  | renameTask task_id title =>
      dsimp only [step] at h
      rw [AtMostOnePending_iff, rename_task_suggestions_eq h]
      exact hp
  | deleteTasks task_ids hard_delete now =>
      dsimp only [step] at h
      exact delete_tasks_pending_inv hp h
  | reparentTask task_id new_parent_id now =>
      dsimp only [step] at h
      rw [AtMostOnePending_iff, reparent_task_suggestions_eq h]
      exact hp
  | startTask task_id now =>
      dsimp only [step] at h
      exact start_task_pending_inv hp h
  | pauseTask task_id now =>
      dsimp only [step] at h
      rw [AtMostOnePending_iff, pause_task_suggestions_eq h]
      exact hp
  | resumeTask task_id now =>
      dsimp only [step] at h
      exact resume_task_pending_inv hp h
  | stopTask task_id now =>
      dsimp only [step] at h
      exact stop_task_pending_inv hp h
  | insertSubtaskAndStart parent_task_id title child_task_id now =>
      dsimp only [step] at h
      cases hc : insert_subtask_and_start s parent_task_id title child_task_id now with
      | error e => rw [hc] at h; dsimp only [Except.map] at h; cases h
      | ok pr =>
          rw [hc] at h
          dsimp only [Except.map] at h
          cases h
          exact insert_subtask_pending_inv hc
  | addTag task_id tag_name new_tag_id now =>
      dsimp only [step] at h
      rw [AtMostOnePending_iff, add_tag_to_task_suggestions_eq h]
      exact hp
  | removeTag task_id tag_name now =>
      dsimp only [step] at h
      rw [AtMostOnePending_iff, remove_tag_from_task_suggestions_eq h]
      exact hp
  | respondRestSuggestion suggestion_id accept now =>
      dsimp only [step] at h
      exact respond_rest_suggestion_pending_inv hp h

/-- C9: writing a new rest suggestion first demotes every pending row to
ignored with `responded_at = trigger_ts` and then inserts the new row
pending with `created_at = trigger_ts` and no response; consequently
every committed operation leaves at most one pending row. -/
theorem rest_suggestions_single_pending (s : Db) (trigger_type : String)
    (task_id : Option String) (focus_seconds switch_count_30m : Int)
    (deviation_ratio : ℚ) (suggested_minutes : Int) (reasons : List String)
    (trigger_ts : Int) (op : Op) (s₀ s₁ : Db)
    (hp : AtMostOnePending s₀) (hstep : step op s₀ = .ok s₁) :
    (insert_rest_suggestion s trigger_type task_id focus_seconds switch_count_30m
        deviation_ratio suggested_minutes reasons trigger_ts).suggestions =
      s.suggestions.map (fun r =>
        if r.status = "pending" then
          { r with status := "ignored", responded_at := some trigger_ts }
        else r) ++
      [⟨s.next_suggestion_id, trigger_type, task_id, focus_seconds, switch_count_30m,
        deviation_ratio, suggested_minutes, reasons, "pending", trigger_ts, none⟩] ∧
    AtMostOnePending s₁ :=
  ⟨rfl, step_preserves_at_most_one_pending op s₀ s₁ hp hstep⟩

/-- Witness for C9 at a concrete store and operation. -/
theorem rest_suggestions_single_pending_witness :
    (insert_rest_suggestion sampleResponded "task_switch" none 0 0 0 0
        ["current rhythm is stable; continuing is reasonable"] 9).suggestions =
      sampleResponded.suggestions.map (fun r =>
        if r.status = "pending" then
          { r with status := "ignored", responded_at := some 9 }
        else r) ++
      [⟨2, "task_switch", none, 0, 0, 0, 0,
        ["current rhythm is stable; continuing is reasonable"], "pending", 9, none⟩] ∧
    AtMostOnePending { sampleIdle with
      tasks := [⟨"a", none, "A", "running", 0, none⟩],
      events := [⟨1, "a", "start", 7, none⟩], next_event_id := 2 } :=
  rest_suggestions_single_pending sampleResponded "task_switch" none 0 0 0 0
    ["current rhythm is stable; continuing is reasonable"] 9
    (.startTask "a" 7) sampleIdle _
    (by unfold AtMostOnePending; decide) (by decide)

end TimeFlies
